import Mathlib

/-!
Verification of the riat HSC compiler's semantic analyzer and emitter.

This file is a shallow embedding of the relevant parts of the source
(src/value_type.rs, src/types.rs, src/compile/mod.rs) into Lean 4, together
with theorems settling a list of specification claims about them.
Rust machine integers are modelled as Int/Nat with explicit range checks,
f32 literal values are carried as exact rationals (no claim depends on
float rounding), fallible code returns Except, and Rust panics
(out-of-bounds indexing, arithmetic underflow, unreachable arms) are
modelled as dedicated error constructors.
-/

namespace Riat

/-- Value type enum, translated from ValueType in src/value_type.rs. -/
inductive ValueType where
  | unparsed
  | specialForm
  | functionName
  | passthrough
  | void
  | boolean
  | real
  | short
  | long
  | string
  | script
  | triggerVolume
  | cutsceneFlag
  | cutsceneCameraPoint
  | cutsceneTitle
  | cutsceneRecording
  | deviceGroup
  | ai
  | aiCommandList
  | startingProfile
  | conversation
  | navpoint
  | hudMessage
  | objectList
  | sound
  | effect
  | damage
  | loopingSound
  | animationGraph
  | actorVariant
  | damageEffect
  | objectDefinition
  | gameDifficulty
  | team
  | aiDefaultState
  | actorType
  | hudCorner
  | object
  | unit
  | vehicle
  | weapon
  | device
  | scenery
  | objectName
  | unitName
  | vehicleName
  | weaponName
  | deviceName
  | sceneryName
deriving DecidableEq, Fintype

/-- Translation of ValueType::can_convert_to.  The Rust match arms are, in
order: reflexivity; anything-to-Void; Passthrough-to-anything; the numeric
rules; Vehicle-to-Unit; the object family to Object/ObjectList; else false. -/
def ValueType.can_convert_to (self to_ : ValueType) : Bool :=
  if self = to_ then true
  else if to_ = ValueType.void then true
  else
    match self with
    | .passthrough => true
    | .real => to_ = ValueType.long || to_ = ValueType.short
    | .short => to_ = ValueType.real
    | .long => to_ = ValueType.short || to_ = ValueType.real
    | .vehicle => to_ = ValueType.unit || to_ = ValueType.object || to_ = ValueType.objectList
    | .objectName | .object | .unit | .weapon | .scenery | .device =>
        to_ = ValueType.object || to_ = ValueType.objectList
    | _ => false

/-- Translation of ValueType::from_str_underscore. -/
def ValueType.from_str_underscore (s : String) : Option ValueType :=
  if s = "unparsed" then some .unparsed
  else if s = "special_form" then some .specialForm
  else if s = "function_name" then some .functionName
  else if s = "passthrough" then some .passthrough
  else if s = "void" then some .void
  else if s = "boolean" then some .boolean
  else if s = "real" then some .real
  else if s = "short" then some .short
  else if s = "long" then some .long
  else if s = "string" then some .string
  else if s = "script" then some .script
  else if s = "trigger_volume" then some .triggerVolume
  else if s = "cutscene_flag" then some .cutsceneFlag
  else if s = "cutscene_camera_point" then some .cutsceneCameraPoint
  else if s = "cutscene_title" then some .cutsceneTitle
  else if s = "cutscene_recording" then some .cutsceneRecording
  else if s = "device_group" then some .deviceGroup
  else if s = "ai" then some .ai
  else if s = "ai_command_list" then some .aiCommandList
  else if s = "starting_profile" then some .startingProfile
  else if s = "conversation" then some .conversation
  else if s = "navpoint" then some .navpoint
  else if s = "hud_message" then some .hudMessage
  else if s = "object_list" then some .objectList
  else if s = "sound" then some .sound
  else if s = "effect" then some .effect
  else if s = "damage" then some .damage
  else if s = "looping_sound" then some .loopingSound
  else if s = "animation_graph" then some .animationGraph
  else if s = "actor_variant" then some .actorVariant
  else if s = "damage_effect" then some .damageEffect
  else if s = "object_definition" then some .objectDefinition
  else if s = "game_difficulty" then some .gameDifficulty
  else if s = "team" then some .team
  else if s = "ai_default_state" then some .aiDefaultState
  else if s = "actor_type" then some .actorType
  else if s = "hud_corner" then some .hudCorner
  else if s = "object" then some .object
  else if s = "unit" then some .unit
  else if s = "vehicle" then some .vehicle
  else if s = "weapon" then some .weapon
  else if s = "device" then some .device
  else if s = "scenery" then some .scenery
  else if s = "object_name" then some .objectName
  else if s = "unit_name" then some .unitName
  else if s = "vehicle_name" then some .vehicleName
  else if s = "weapon_name" then some .weaponName
  else if s = "device_name" then some .deviceName
  else if s = "scenery_name" then some .sceneryName
  else none

/-- Models Rust str::to_ascii_lowercase on a single character. -/
def asciiLowerChar (c : Char) : Char :=
  if 'A' ≤ c ∧ c ≤ 'Z' then Char.ofNat (c.toNat + 32) else c

/-- Models Rust str::to_ascii_lowercase (used by Compiler::lowercase_token). -/
def asciiLower (s : String) : String :=
  String.mk (s.data.map asciiLowerChar)

/-- Numeric value of an ASCII digit, none for any other character. -/
def digitVal (c : Char) : Option Nat :=
  if '0' ≤ c ∧ c ≤ '9' then some (c.toNat - '0'.toNat) else none

/-- Accumulate a run of decimal digits; none if any character is not a digit. -/
def parse_nat_digits : List Char → Nat → Option Nat
  | [], acc => some acc
  | c :: cs, acc =>
    match digitVal c with
    | some d => parse_nat_digits cs (acc * 10 + d)
    | none => none

/-- Models Rust str::parse for signed decimal integers: an optional sign
followed by one or more ASCII digits, nothing else. -/
def parse_int_string (s : String) : Option Int :=
  match s.data with
  | [] => none
  | '+' :: rest =>
    if rest = [] then none else (parse_nat_digits rest 0).map Int.ofNat
  | '-' :: rest =>
    if rest = [] then none else (parse_nat_digits rest 0).map (fun n => -(n : Int))
  | cs => (parse_nat_digits cs 0).map Int.ofNat

/-- Models str::parse with an i16 range check, as used for Short literals. -/
def parse_i16 (s : String) : Option Int :=
  (parse_int_string s).bind fun n =>
    if -32768 ≤ n ∧ n ≤ 32767 then some n else none

/-- Models str::parse with an i32 range check, as used for Long literals. -/
def parse_i32 (s : String) : Option Int :=
  (parse_int_string s).bind fun n =>
    if -2147483648 ≤ n ∧ n ≤ 2147483647 then some n else none

/-- Split a leading run of ASCII digits from a character list. -/
def splitDigits : List Char → List Char × List Char
  | [] => ([], [])
  | c :: cs =>
    if (digitVal c).isSome then
      let (d, r) := splitDigits cs
      (c :: d, r)
    else ([], c :: cs)

/-- Unsigned part of the f32 literal model: digits with an optional
fraction part.  The value is kept as an exact rational. -/
def parse_f32_unsigned (cs : List Char) : Option Rat :=
  let (ip, rest) := splitDigits cs
  match rest with
  | [] =>
    if ip = [] then none
    else (parse_nat_digits ip 0).map (fun n => (n : Rat))
  | '.' :: rest2 =>
    let (fp, rest3) := splitDigits rest2
    if ip = [] ∧ fp = [] then none
    else if rest3 = [] then
      (parse_nat_digits ip 0).bind fun ipn =>
        (parse_nat_digits fp 0).map fun fpn =>
          (ipn : Rat) + (fpn : Rat) / ((10 : Rat) ^ fp.length)
    else none
  | _ => none

/-- Models str::parse into an f32 for Real literals, restricted to the plain
decimal fragment (optional sign, digits, optional fraction).  Exponent and
inf/nan forms are not modelled; no claim depends on them, and all claims
are conditioned on the analyzer succeeding. -/
def parse_f32 (s : String) : Option Rat :=
  match s.data with
  | '+' :: rest => parse_f32_unsigned rest
  | '-' :: rest => (parse_f32_unsigned rest).map Neg.neg
  | cs => parse_f32_unsigned cs

/-- Token from the tokenizer (src/token.rs): source position plus either a
leaf string or an ordered child list. -/
inductive Token where
  | mk (line column file : Nat) (string : String) (children : Option (List Token))

def Token.line : Token → Nat
  | .mk l _ _ _ _ => l

def Token.column : Token → Nat
  | .mk _ c _ _ _ => c

def Token.file : Token → Nat
  | .mk _ _ f _ _ => f

def Token.string : Token → String
  | .mk _ _ _ s _ => s

def Token.children : Token → Option (List Token)
  | .mk _ _ _ _ c => c

/-- Source position of a token, standing for the (file, line, column)
triple used when constructing a CompileError. -/
structure Pos where
  file : Nat
  line : Nat
  column : Nat
deriving DecidableEq

/-- Position of a token, as used by the error/warning macros. -/
def tokPos (t : Token) : Pos :=
  ⟨t.file, t.line, t.column⟩

/-- NodeData from src/types.rs.  Real literal values are carried as exact
rationals (see parse_f32). -/
inductive NodeData where
  | boolean (b : Bool)
  | short (n : Int)
  | long (n : Int)
  | real (r : Rat)
  | nodeOffset (n : Nat)
deriving DecidableEq

/-- PrimitiveType from src/types.rs. -/
inductive PrimitiveType where
  | static
  | local
  | global
deriving DecidableEq

/-- NodeType from src/types.rs.  The Bool of functionCall is true for
engine functions. -/
inductive NodeType where
  | primitive (t : PrimitiveType)
  | functionCall (isEngine : Bool)
deriving DecidableEq

/-- Whether the node type is a function call (NodeType::is_function_call). -/
def NodeType.is_function_call : NodeType → Bool
  | .functionCall _ => true
  | _ => false

/-- Analyzed node (struct Node in src/compile/types.rs).  The field order is
value_type, node_type, string_data, data, index, parameters, file, line,
column.  The index union is modelled as a Nat (u16 values only are stored). -/
inductive Node where
  | mk (value_type : ValueType) (node_type : NodeType) (string_data : Option String)
       (data : Option NodeData) (index : Option Nat)
       (parameters : Option (List Node)) (file line column : Nat)

def Node.value_type : Node → ValueType
  | .mk v _ _ _ _ _ _ _ _ => v

def Node.node_type : Node → NodeType
  | .mk _ n _ _ _ _ _ _ _ => n

def Node.string_data : Node → Option String
  | .mk _ _ s _ _ _ _ _ _ => s

def Node.data : Node → Option NodeData
  | .mk _ _ _ d _ _ _ _ _ => d

def Node.index : Node → Option Nat
  | .mk _ _ _ _ i _ _ _ _ => i

def Node.parameters : Node → Option (List Node)
  | .mk _ _ _ _ _ p _ _ _ => p

def Node.file : Node → Nat
  | .mk _ _ _ _ _ _ f _ _ => f

def Node.line : Node → Nat
  | .mk _ _ _ _ _ _ _ l _ => l

def Node.column : Node → Nat
  | .mk _ _ _ _ _ _ _ _ c => c

/-- Engine function parameter (EngineFunctionParameter in definitions.rs). -/
structure EngineFunctionParameter where
  value_type : ValueType
  many : Bool
  allow_uppercase : Bool
  optional : Bool
deriving DecidableEq

/-- A callable function as seen through the CallableFunction trait.  Engine
functions (EngineFunction) carry their parameter flags; a user Script is
represented with engine_function = false, all flags false and plain
per-parameter types, which makes the trait methods below agree with the
Script impl in src/types.rs. -/
structure FunctionDef where
  name : String
  return_type : ValueType
  parameters : List EngineFunctionParameter
  number_passthrough : Bool := false
  passthrough_last : Bool := false
  inequality : Bool := false
  engine_function : Bool := true
deriving DecidableEq

/-- CallableFunction::get_total_parameter_count. -/
def FunctionDef.get_total_parameter_count (f : FunctionDef) : Nat :=
  f.parameters.length

/-- CallableFunction::get_minimum_parameter_count: index of the first
optional parameter, or the total count when none is optional. -/
def FunctionDef.get_minimum_parameter_count (f : FunctionDef) : Nat :=
  match f.parameters.findIdx? (fun p => p.optional) with
  | some i => i
  | none => f.parameters.length

/-- CallableFunction::get_type_of_parameter: the declared type at the index,
repeating the last parameter when it is marked many. -/
def FunctionDef.get_type_of_parameter (f : FunctionDef) (index : Nat) : Option ValueType :=
  match f.parameters.length with
  | 0 => none
  | _ + 1 =>
    if index < f.parameters.length then
      (f.parameters.get? index).map (fun p => p.value_type)
    else
      match f.parameters.getLast? with
      | some last => if last.many then some last.value_type else none
      | none => none

/-- CallableFunction::is_uppercase_allowed_for_parameter. -/
def FunctionDef.is_uppercase_allowed_for_parameter (f : FunctionDef) (i : Nat) : Bool :=
  match f.parameters.get? i with
  | some p => p.allow_uppercase
  | none => false

/-- A callable global as seen through the CallableGlobal trait (engine
globals and user globals both reduce to a name and a value type). -/
structure GlobalDef where
  name : String
  value_type : ValueType
deriving DecidableEq

/-- Script parameter (struct ScriptParameter in src/types.rs). -/
structure ScriptParameter where
  name : String
  value_type : ValueType
deriving DecidableEq

/-- Translation of the free function parameter_index in src/compile/mod.rs:
index of the first parameter with the given name. -/
def parameter_index (name : String) (parameters : List ScriptParameter) : Option Nat :=
  parameters.findIdx? (fun p => p.name = name)

/-- Lookup in the available_functions map (BTreeMap::get keyed by name). -/
def lookupFunction (fs : List FunctionDef) (name : String) : Option FunctionDef :=
  fs.find? (fun f => f.name = name)

/-- Lookup in the available_globals map (BTreeMap::get keyed by name). -/
def lookupGlobal (gs : List GlobalDef) (name : String) : Option GlobalDef :=
  gs.find? (fun g => g.name = name)

/-- Compile error outcomes of the analyzer.  Each constructor corresponds to
one return_compile_error site in src/compile/mod.rs; the panic constructors
model Rust panics (indexing out of bounds, usize underflow, unreachable
arms); fuelExhausted is the out-of-fuel marker of this embedding and never
occurs for the actual terminating computation. -/
inductive CErr where
  | condNoExpressions (p : Pos)
  | condBadArm (p : Pos)
  | unknownFunction (p : Pos) (name : String)
  | tooFewParameters (p : Pos) (name : String) (minimum got : Nat)
  | setBlockAsVariableName (p : Pos)
  | setNotAGlobal (p : Pos) (name : String)
  | tooManyParameters (p : Pos) (name : String) (maximum : Nat)
  | setRequiresVariableName (p : Pos)
  | numberPassthroughNotNumeric (p : Pos) (t : ValueType) (name : String)
  | inequalityBadType (p : Pos) (t : ValueType) (name : String)
  | badLiteral (p : Pos) (token : String) (t : ValueType) (functionExists : Bool)
  | scriptNameIsEngineFunction (p : Pos) (token : String)
  | globalConvertError (p : Pos) (name : String) (fromT toT : ValueType)
  | functionReturnConvertError (p : Pos) (name : String) (fromT toT : ValueType)
  | stubNotReplaceable (p : Pos) (name : String)
  | stubReturnMismatch (p : Pos) (name : String)
  | scriptLimitExceeded (p : Pos) (count : Nat)
  | scriptParamsNotSupported (p : Pos)
  | scriptParamsWrongKind (p : Pos)
  | scriptNameIsBlock (p : Pos)
  | tooManyScriptParameters (p : Pos) (maximum : Nat)
  | expectedScriptParameter (p : Pos)
  | scriptParameterShape (p : Pos)
  | badScriptParameterType (p : Pos) (token : String)
  | panicIndexOutOfBounds
  | panicArithmeticUnderflow
  | panicUnreachable
  | fuelExhausted
deriving DecidableEq

/-- Translation of the calculate_type closure in create_node_from_tokens:
with a passthrough expectation the variable keeps its own type; otherwise
the variable type must convert to the expected type (else the cannot-convert
error) and the node takes the expected type. -/
def calculate_type (token : Token) (literal_lowercase : String)
    (expected_type value_type : ValueType) : Except CErr ValueType :=
  if expected_type = ValueType.passthrough then .ok value_type
  else if value_type.can_convert_to expected_type then .ok expected_type
  else .error (.globalConvertError (tokPos token) literal_lowercase value_type expected_type)

/-- Build one synthesized if block of the cond desugaring: the arm must be a
block (condition expression(s)) with at least two children, and becomes
(if condition (begin expression(s))) with positions copied as in the source. -/
def cond_arm_to_if_block (token : Token) : Except CErr Token :=
  match token.children with
  | some (condition :: e0 :: expressions_rest) =>
    let expressions := e0 :: expressions_rest
    let begin_leaf : Token := .mk e0.line e0.column e0.file "begin" none
    let begin_block : Token := .mk e0.line e0.column e0.file "" (some (begin_leaf :: expressions))
    let if_leaf : Token := .mk token.line token.column token.file "if" none
    .ok (.mk token.line token.column token.file "" (some [if_leaf, condition, begin_block]))
  | _ => .error (.condBadArm (tokPos token))

/-- Build all if blocks of a cond form in order. -/
def cond_arms : List Token → Except CErr (List Token)
  | [] => .ok []
  | t :: rest => do
    let b ← cond_arm_to_if_block t
    let bs ← cond_arms rest
    .ok (b :: bs)

/-- Fold the synthesized if blocks from last to first, appending each later
block as the trailing else branch of the one before it (the reverse pop loop
over if_tree in the source). -/
def nest_if_tree : List Token → Token
  | [] => .mk 0 0 0 "" none
  | [b] => b
  | b :: rest =>
    let tail := nest_if_tree rest
    match b.children with
    | some cs => .mk b.line b.column b.file b.string (some (cs ++ [tail]))
    | none => b

/-- Translation of the passthrough seed in create_node_from_function: for
set, the type of the named global (the first argument must be a leaf naming
a visible global, else an error); for a passthrough-returning function whose
return type was replaced, the replaced type; otherwise undetermined. -/
def passthrough_seed (function_name : String) (function_call_token : Token)
    (function_return_type final_type : ValueType) (tokens : List Token)
    (available_globals : List GlobalDef) : Except CErr (Option ValueType) :=
  if function_name = "set" then
    match tokens.get? 0 with
    | none => .error CErr.panicIndexOutOfBounds
    | some fn_token =>
      match fn_token.children with
      | some _ => .error (.setBlockAsVariableName (tokPos function_call_token))
      | none =>
        let string_data := asciiLower fn_token.string
        match lookupGlobal available_globals string_data with
        | some g => .ok (some g.value_type)
        | none => .error (.setNotAGlobal (tokPos function_call_token) string_data)
  else if function_return_type = ValueType.passthrough ∧ final_type ≠ function_return_type then
    .ok (some final_type)
  else
    .ok none

/-- Translation of the set fixup after the argument pass: the first
parameter node (a local if the name is a script parameter, else a global)
gets the sentinel 0xFFFF written into its index union.  The node type
comparison mirrors the debug assertion in the source. -/
def set_index_fixup (tokens : List Token) (parameters : List Node)
    (available_parameters : List ScriptParameter) : Except CErr (List Node) :=
  match parameters with
  | [] => .error CErr.panicIndexOutOfBounds
  | p0 :: rest =>
    match p0.string_data with
    | none =>
      match tokens.get? 0 with
      | some t0 => .error (.setRequiresVariableName (tokPos t0))
      | none => .error CErr.panicIndexOutOfBounds
    | some sd =>
      let string_data := asciiLower sd
      let parameter_type :=
        match parameter_index string_data available_parameters with
        | some _ => PrimitiveType.local
        | none => PrimitiveType.global
      if p0.node_type = NodeType.primitive parameter_type then
        .ok (Node.mk p0.value_type p0.node_type p0.string_data p0.data (some 65535)
              p0.parameters p0.file p0.line p0.column :: rest)
      else .error CErr.panicUnreachable

/-- Build the node updated by literal parsing: the (possibly passthrough
substituted) value type, the parsed data, and the string data cleared for
numeric and boolean literals or kept for enumerated strings. -/
def setParsed (node : Node) (vt : ValueType) (d : Option NodeData) (clear : Bool)
    (string_to_parse : String) : Node :=
  Node.mk vt node.node_type (if clear then none else some string_to_parse) d node.index
    node.parameters node.file node.line node.column

/-- The value parsing of one literal, by value type: returns the node data
together with the clear_string_data flag of the source, or the parse error.
Boolean, Short, Long and Real literals clear the string data; enumerated
strings keep it; a Script literal must name a user script; Void cannot be a
literal; Passthrough and SpecialForm are unreachable. -/
def parse_literal_value (available_functions : List FunctionDef) (token : Token)
    (string_to_parse : String) (vt : ValueType) : Except CErr (Option NodeData × Bool) :=
  let functionExists := (lookupFunction available_functions string_to_parse).isSome
  match vt with
  | .boolean =>
    if string_to_parse = "0" ∨ string_to_parse = "false" ∨ string_to_parse = "off" then
      .ok (some (.boolean false), true)
    else if string_to_parse = "1" ∨ string_to_parse = "true" ∨ string_to_parse = "on" then
      .ok (some (.boolean true), true)
    else .error (.badLiteral (tokPos token) string_to_parse vt functionExists)
  | .short =>
    match parse_i16 string_to_parse with
    | some n => .ok (some (.short n), true)
    | none => .error (.badLiteral (tokPos token) string_to_parse vt functionExists)
  | .long =>
    match parse_i32 string_to_parse with
    | some n => .ok (some (.long n), true)
    | none => .error (.badLiteral (tokPos token) string_to_parse vt functionExists)
  | .real =>
    match parse_f32 string_to_parse with
    | some r => .ok (some (.real r), true)
    | none => .error (.badLiteral (tokPos token) string_to_parse vt functionExists)
  | .gameDifficulty =>
    if string_to_parse = "easy" then .ok (some (.short 0), false)
    else if string_to_parse = "normal" then .ok (some (.short 1), false)
    else if string_to_parse = "hard" then .ok (some (.short 2), false)
    else if string_to_parse = "impossible" then .ok (some (.short 3), false)
    else .error (.badLiteral (tokPos token) string_to_parse vt functionExists)
  | .team =>
    if string_to_parse = "default" then .ok (some (.short 0), false)
    else if string_to_parse = "player" then .ok (some (.short 1), false)
    else if string_to_parse = "human" then .ok (some (.short 2), false)
    else if string_to_parse = "covenant" then .ok (some (.short 3), false)
    else if string_to_parse = "flood" then .ok (some (.short 4), false)
    else if string_to_parse = "sentinel" then .ok (some (.short 5), false)
    else if string_to_parse = "unused6" then .ok (some (.short 6), false)
    else if string_to_parse = "unused7" then .ok (some (.short 7), false)
    else if string_to_parse = "unused8" then .ok (some (.short 8), false)
    else if string_to_parse = "unused9" then .ok (some (.short 9), false)
    else .error (.badLiteral (tokPos token) string_to_parse vt functionExists)
  | .script =>
    match lookupFunction available_functions string_to_parse with
    | some f =>
      if f.engine_function then
        .error (.scriptNameIsEngineFunction (tokPos token) string_to_parse)
      else .ok (none, false)
    | none => .error (.badLiteral (tokPos token) string_to_parse vt functionExists)
  | .void => .error (.badLiteral (tokPos token) string_to_parse vt functionExists)
  | .passthrough => .error CErr.panicUnreachable
  | .specialForm => .error CErr.panicUnreachable
  | _ => .ok (none, false)

/-- Translation of one iteration of the literal parsing loop in
create_node_from_function: only Primitive(Static) nodes are parsed; the
string keeps its case for uppercase-allowed parameters; a node still typed
passthrough takes the final passthrough type; then the literal is parsed
according to the value type and the node updated. -/
def parse_one_literal (function : FunctionDef) (available_functions : List FunctionDef)
    (token : Token) (node : Node) (idx : Nat) (final_passthrough_type : ValueType) :
    Except CErr Node :=
  if node.node_type = NodeType.primitive PrimitiveType.static then
    let string_to_parse :=
      if function.is_uppercase_allowed_for_parameter idx then token.string
      else asciiLower token.string
    let vt := if node.value_type = ValueType.passthrough then final_passthrough_type
              else node.value_type
    do
      let r ← parse_literal_value available_functions token string_to_parse vt
      .ok (setParsed node vt r.1 r.2 string_to_parse)
  else .ok node

/-- The literal parsing loop over all parameters, indexed in step with the
argument tokens.  Token and node lists always have equal length. -/
def parse_literal_parameters (function : FunctionDef) (available_functions : List FunctionDef) :
    List Token → List Node → Nat → ValueType → Except CErr (List Node)
  | [], [], _, _ => .ok []
  | token :: ts, node :: ns, idx, fpt => do
    let node2 ← parse_one_literal function available_functions token node idx fpt
    let rest ← parse_literal_parameters function available_functions ts ns (idx + 1) fpt
    .ok (node2 :: rest)
  | _, _, _, _ => .error CErr.panicIndexOutOfBounds

/-- Translation of the argument pass in create_node_from_function.  For each
argument token: determine the expected type (a passthrough parameter becomes
Void when only the last parameter passes through and this is not the last
argument, else the current unification type if known, else Passthrough),
recurse through rec, and record the unification type discovered by an
argument analyzed with Passthrough. -/
def process_parameters (rec : Token → ValueType → Except CErr Node) (function : FunctionDef)
    (function_name : String) (parameter_count : Nat) :
    List Token → Nat → Option ValueType → Except CErr (List Node × Option ValueType)
  | [], _, passthrough_type => .ok ([], passthrough_type)
  | token :: rest, idx, passthrough_type => do
    let pep ←
      (match function.get_type_of_parameter idx with
       | some ValueType.passthrough =>
         if function.passthrough_last ∧ idx + 1 ≠ parameter_count then
           Except.ok (false, ValueType.void)
         else
           match passthrough_type with
           | some n => Except.ok (false, n)
           | none => Except.ok (true, ValueType.passthrough)
       | some n => Except.ok (false, n)
       | none => Except.error (.tooManyParameters (tokPos token) function_name
                   function.get_total_parameter_count) : Except CErr (Bool × ValueType))
    let new_node ← rec token pep.2
    let pt2 := if pep.1 ∧ new_node.value_type ≠ ValueType.passthrough then some new_node.value_type
               else passthrough_type
    let pr ← process_parameters rec function function_name parameter_count rest (idx + 1) pt2
    .ok (new_node :: pr.1, pr.2)

/-- The set branch of the parameter fixup: for the set function the first
parameter receives the sentinel index, otherwise the parameters pass
through unchanged. -/
def apply_set_fixup (function_name : String) (tokens : List Token) (params : List Node)
    (available_parameters : List ScriptParameter) : Except CErr (List Node) :=
  if function_name = "set" then set_index_fixup tokens params available_parameters
  else Except.ok params

/-- The tail of create_node_from_function after the argument pass and the
set fixup: the passthrough type defaults to Real when undetermined, the
numeric and inequality guards run, the literals are parsed, the final
convertibility check runs, and the call node is built. -/
def finish_function_call (function : FunctionDef) (function_name : String)
    (function_call_token : Token) (expected_type final_type : ValueType)
    (tokens : List Token) (available_functions : List FunctionDef)
    (parameters1 : List Node) (passthrough_type : Option ValueType) : Except CErr Node :=
  let final_passthrough_type := passthrough_type.getD ValueType.real
  let passthrough_type_is_numeric := final_passthrough_type.can_convert_to ValueType.real
  if function.number_passthrough ∧ passthrough_type_is_numeric = false then
    .error (.numberPassthroughNotNumeric (tokPos function_call_token)
      final_passthrough_type function_name)
  else if function.inequality ∧ ¬ (passthrough_type_is_numeric = true ∨
      final_passthrough_type = ValueType.gameDifficulty ∨
      final_passthrough_type = ValueType.team) then
    .error (.inequalityBadType (tokPos function_call_token)
      final_passthrough_type function_name)
  else do
    let parameters2 ← parse_literal_parameters function available_functions tokens
      parameters1 0 final_passthrough_type
    if expected_type ≠ ValueType.passthrough ∧
        final_type.can_convert_to expected_type = false then
      .error (.functionReturnConvertError (tokPos function_call_token) function_name
        final_type expected_type)
    else
      .ok (Node.mk final_type (NodeType.functionCall function.engine_function)
            (some function_name) none none (some parameters2)
            function_call_token.file function_call_token.line function_call_token.column)

/-- Translation of Compiler::create_node_from_function, parameterized by the
recursive analysis function rec (create_node_from_tokens applied at the
current fuel).  The stages are, in source order: the cond desugaring, the
function lookup, the minimum argument count check, the return type
resolution, the passthrough seed, the argument pass, the set fixup, the
passthrough default to Real with the numeric and inequality guards, the
literal parsing, and the final convertibility check. -/
def create_node_from_function (rec : Token → ValueType → Except CErr Node)
    (function_name : String) (function_call_token : Token) (expected_type : ValueType)
    (tokens : List Token) (available_parameters : List ScriptParameter)
    (available_functions : List FunctionDef) (available_globals : List GlobalDef) :
    Except CErr Node :=
  if function_name = "cond" then
    match tokens with
    | [] => .error (.condNoExpressions (tokPos function_call_token))
    | _ :: _ => do
      let if_tree ← cond_arms tokens
      rec (nest_if_tree if_tree) expected_type
  else
    match lookupFunction available_functions function_name with
    | none => .error (.unknownFunction (tokPos function_call_token) function_name)
    | some function =>
      let parameter_count := tokens.length
      let minimum := function.get_minimum_parameter_count
      if parameter_count < minimum then
        .error (.tooFewParameters (tokPos function_call_token) function_name minimum
          parameter_count)
      else
        let function_return_type := function.return_type
        let final_type := if expected_type = ValueType.passthrough then function_return_type
                          else expected_type
        do
          let passthrough_type ← passthrough_seed function_name function_call_token
            function_return_type final_type tokens available_globals
          let pr ← process_parameters rec function function_name parameter_count tokens 0
            passthrough_type
          let parameters1 ← apply_set_fixup function_name tokens pr.1 available_parameters
          finish_function_call function function_name function_call_token expected_type
            final_type tokens available_functions parameters1 pr.2

/-- Translation of Compiler::create_node_from_tokens, with a fuel argument
making the recursion through the cond desugaring structural.  A block is
analyzed as a call on its head child; a leaf resolves as a local parameter,
then a visible global, and otherwise stays a static literal typed with the
expected type, to be parsed by the caller. -/
def create_node_from_tokens :
    Nat → Token → ValueType → List ScriptParameter → List FunctionDef → List GlobalDef →
    Except CErr Node
  | 0, _, _, _, _, _ => .error CErr.fuelExhausted
  | fuel + 1, token, expected_type, available_parameters, available_functions,
      available_globals =>
    match token.children with
    | some [] => .error CErr.panicIndexOutOfBounds
    | some (c0 :: rest) =>
      create_node_from_function
        (fun t e => create_node_from_tokens fuel t e available_parameters available_functions
          available_globals)
        (asciiLower c0.string) token expected_type rest
        available_parameters available_functions available_globals
    | none =>
      let literal_lowercase := asciiLower token.string
      match parameter_index literal_lowercase available_parameters with
      | some n =>
        match available_parameters.get? n with
        | none => .error CErr.panicIndexOutOfBounds
        | some p =>
          match calculate_type token literal_lowercase expected_type p.value_type with
          | .error e => .error e
          | .ok final_type =>
            .ok (Node.mk final_type (NodeType.primitive PrimitiveType.local)
                  (some (asciiLower token.string)) none none none token.file token.line
                  token.column)
      | none =>
        match lookupGlobal available_globals literal_lowercase with
        | some global =>
          match calculate_type token literal_lowercase expected_type global.value_type with
          | .error e => .error e
          | .ok final_type =>
            .ok (Node.mk final_type (NodeType.primitive PrimitiveType.global)
                  (some (asciiLower token.string)) none none none token.file token.line
                  token.column)
        | none =>
          .ok (Node.mk expected_type (NodeType.primitive PrimitiveType.static)
                (some (asciiLower token.string)) none none none token.file token.line
                token.column)

/-- The recursive closure passed by create_node_from_tokens to
create_node_from_function at a given fuel and environment. -/
def analyzeRec (fuel : Nat) (aps : List ScriptParameter) (afs : List FunctionDef)
    (ags : List GlobalDef) : Token → ValueType → Except CErr Node :=
  fun t e => create_node_from_tokens fuel t e aps afs ags

/-- ScriptType from src/types.rs. -/
inductive ScriptType where
  | startup
  | dormant
  | continuous
  | static
  | stub
deriving DecidableEq

/-- The fields of struct Script taking part in the post-pass stages modelled
here: name, return type, script type and the position of the original token
(the analyzed body and the parameter list play no role in stub removal or
the script limit check). -/
structure ScriptRec where
  name : String
  return_type : ValueType
  script_type : ScriptType
  pos : Pos := ⟨0, 0, 0⟩
deriving DecidableEq

/-- The inner scan of the stub removal loop: the first index j distinct from
i whose script has the same name as scripts[i]. -/
def find_partner (scripts : List ScriptRec) (i : Nat) (si : ScriptRec) : Option Nat :=
  (List.range scripts.length).find? (fun j =>
    decide (j ≠ i) && ((scripts.get? j).any (fun sj => sj.name == si.name)))

/-- The outer scan of the stub removal loop: the first stub script that has
another script of the same name, together with that partner index. -/
def find_stub_conflict (scripts : List ScriptRec) : Option (Nat × Nat) :=
  (List.range scripts.length).findSome? (fun i =>
    match scripts.get? i with
    | some si =>
      if si.script_type = ScriptType.stub then
        (find_partner scripts i si).map (fun j => (i, j))
      else none
    | none => none)

/-- Translation of the stub removal loop in digest_tokens: repeatedly find a
stub with a same-named partner; the partner must be a static script (else
the cannot-replace error) with the same return type (else the mismatch
error); then the stub is removed and the scan restarts.  The fuel bounds the
number of restarts; any fuel beyond the list length is enough. -/
def remove_stubs : Nat → List ScriptRec → Except CErr (List ScriptRec)
  | 0, _ => .error CErr.fuelExhausted
  | fuel + 1, scripts =>
    match find_stub_conflict scripts with
    | none => .ok scripts
    | some (i, j) =>
      match scripts.get? i, scripts.get? j with
      | some si, some sj =>
        if sj.script_type ≠ ScriptType.static then
          .error (.stubNotReplaceable si.pos si.name)
        else if sj.return_type ≠ si.return_type then
          .error (.stubReturnMismatch si.pos si.name)
        else remove_stubs fuel (scripts.eraseIdx i)
      | _, _ => .error CErr.panicUnreachable

/-- Outcome of the script limit check: success, the limit error built from
the script the code indexes for the message, or the Rust panic that very
indexing causes when it is out of bounds. -/
inductive LimitOutcome where
  | ok
  | limitError (p : Pos) (count : Nat)
  | panicIndexOutOfBounds
deriving DecidableEq

/-- Translation of the script count limit check in digest_tokens: when the
final script count exceeds i16::MAX (32767) the error is built from
scripts[i16::MAX as usize + 1], i.e. scripts[32768]; indexing a vector out
of bounds is a Rust panic. -/
def check_script_limit (scripts : List ScriptRec) : LimitOutcome :=
  if scripts.length > 32767 then
    match scripts.get? 32768 with
    | some s => .limitError s.pos scripts.length
    | none => .panicIndexOutOfBounds
  else .ok

/-- CompileTarget from src/types.rs. -/
inductive CompileTarget where
  | haloCEA
  | haloCEXboxNTSC
  | haloCEGBX
  | haloCEGBXDemo
  | haloCustomEdition
deriving DecidableEq

/-- CompileTarget::maximum_script_parameters. -/
def CompileTarget.maximum_script_parameters : CompileTarget → Nat
  | .haloCEA => 16
  | _ => 0

/-- Parse the (type name) script parameter tokens (the for loop over
parameter_tokens in digest_tokens): each must be a block of exactly two
leaves; the type string is looked up without lowercasing, the name is
lowercased. -/
def parse_parameter_tokens : List Token → Except CErr (List ScriptParameter)
  | [] => .ok []
  | p :: rest =>
    match p.children with
    | none => .error (.expectedScriptParameter (tokPos p))
    | some children =>
      match children with
      | [c0, c1] =>
        match c0.children, c1.children with
        | none, none =>
          match ValueType.from_str_underscore c0.string with
          | none => .error (.badScriptParameterType (tokPos p) c0.string)
          | some t => do
            let restP ← parse_parameter_tokens rest
            .ok ({ name := asciiLower c1.string, value_type := t } :: restP)
        | _, _ => .error (.scriptParameterShape (tokPos p))
      | _ => .error (.scriptParameterShape (tokPos p))

/-- Translation of the script parameter block parsing in digest_tokens (the
Some(c) arm of the script name token match): the target must support script
parameters and the kind must be static or stub; the script name is the first
child of the block, which must be a leaf; the declared parameters are the
remaining children, but the count compared against the target limit is
computed as their number minus one (usize arithmetic, which underflows and
panics in a debug build when there are none). -/
def parse_script_header_parameters (target : CompileTarget) (script_type : ScriptType)
    (name_token : Token) (c : List Token) : Except CErr (String × List ScriptParameter) :=
  let max_script_parameters := target.maximum_script_parameters
  if max_script_parameters = 0 then .error (.scriptParamsNotSupported (tokPos name_token))
  else if script_type ≠ ScriptType.static ∧ script_type ≠ ScriptType.stub then
    .error (.scriptParamsWrongKind (tokPos name_token))
  else
    match c with
    | [] => .error CErr.panicIndexOutOfBounds
    | nt :: parameter_tokens =>
      match nt.children with
      | some _ => .error (.scriptNameIsBlock (tokPos nt))
      | none =>
        let name := asciiLower nt.string
        match parameter_tokens.length with
        | 0 => .error CErr.panicArithmeticUnderflow
        | parameter_count + 1 =>
          if parameter_count > max_script_parameters then
            .error (.tooManyScriptParameters (tokPos nt) max_script_parameters)
          else do
            let params ← parse_parameter_tokens parameter_tokens
            .ok (name, params)

/-- Warning record for a use of an uninitialized global: position of the
referencing node and the referenced name. -/
structure UninitWarning where
  file : Nat
  line : Nat
  column : Nat
  name : String
deriving DecidableEq

/-- The fields of struct Global used by the uninitialized global walk. -/
structure GlobalRec where
  name : String
  node : Node

mutual
/-- Translation of find_uninitialized_globals in digest_tokens: a global
primitive node warns once when its name matches any global in the given
slice; a call recurses into its parameters in order; other nodes warn
nothing.  The source unwraps string_data and parameters, which are always
present for these node kinds. -/
def find_uninitialized_globals : Node → List GlobalRec → List UninitWarning
  | Node.mk _ (NodeType.primitive PrimitiveType.global) sd _ _ _ f l c, globals =>
    let global_name := sd.getD ""
    if globals.any (fun g => g.name = global_name) then [⟨f, l, c, global_name⟩] else []
  | Node.mk _ (NodeType.functionCall _) _ _ _ (some ps) _ _ _, globals =>
    find_uninitialized_globals_list ps globals
  | Node.mk _ (NodeType.functionCall _) _ _ _ none _ _ _, _ => []
  | Node.mk _ (NodeType.primitive PrimitiveType.static) _ _ _ _ _ _ _, _ => []
  | Node.mk _ (NodeType.primitive PrimitiveType.local) _ _ _ _ _ _ _, _ => []

/-- The recursion of find_uninitialized_globals over a parameter list. -/
def find_uninitialized_globals_list : List Node → List GlobalRec → List UninitWarning
  | [], _ => []
  | n :: rest, globals =>
    find_uninitialized_globals n globals ++ find_uninitialized_globals_list rest globals
end

/-- Translation of the warning pass driver in digest_tokens: for each global
in declaration order, walk its initializer against the slice of globals
starting at itself (globals[i..]). -/
def all_uninitialized_global_warnings : List GlobalRec → List UninitWarning
  | [] => []
  | g :: rest =>
    find_uninitialized_globals g.node (g :: rest) ++ all_uninitialized_global_warnings rest

mutual
/-- Specification-side collector for claim C10: every Primitive(Global)
reference of the tree in traversal order, as a warning-shaped record. -/
def globalRefs : Node → List UninitWarning
  | Node.mk _ (NodeType.primitive PrimitiveType.global) sd _ _ _ f l c =>
    [⟨f, l, c, sd.getD ""⟩]
  | Node.mk _ (NodeType.functionCall _) _ _ _ (some ps) _ _ _ => globalRefsList ps
  | Node.mk _ (NodeType.functionCall _) _ _ _ none _ _ _ => []
  | Node.mk _ (NodeType.primitive PrimitiveType.static) _ _ _ _ _ _ _ => []
  | Node.mk _ (NodeType.primitive PrimitiveType.local) _ _ _ _ _ _ _ => []

/-- The recursion of globalRefs over a parameter list. -/
def globalRefsList : List Node → List UninitWarning
  | [] => []
  | n :: rest => globalRefs n ++ globalRefsList rest
end

/-- Specification-side description of the warning pass, following the words
of claim C10: for the i-th global, exactly its Primitive(Global) references
whose name matches a user global at positions i..N-1, inclusive of the i-th
global itself. -/
def uninitializedWarningsSpec : List GlobalRec → List UninitWarning
  | [] => []
  | g :: rest =>
    ((globalRefs g.node).filter (fun w => (g :: rest).any (fun g2 => g2.name = w.name))) ++
      uninitializedWarningsSpec rest

/-- Compiled node (struct CompiledNode in src/compile/types.rs); the C
strings are modelled as the strings themselves. -/
structure CompiledNode where
  node_type : NodeType
  value_type : ValueType
  data : Option NodeData
  string_data : Option String
  next_node : Option Nat
  index : Option Nat
  file : Nat
  line : Nat
  column : Nat
deriving DecidableEq

/-- Functional model of node_array[previous_node].next_node =
Some(next_node); the index is always in bounds when the emitter performs
the assignment. -/
def set_next_node (arr : List CompiledNode) (i v : Nat) : List CompiledNode :=
  match arr.get? i with
  | some node => arr.set i { node with next_node := some v }
  | none => arr

mutual
/-- Translation of make_compiled_node_from_node in digest_tokens: a
primitive appends one compiled node; a call appends the call node with
data = NodeOffset of the next index, then the synthetic Primitive(Static)
FunctionName node holding the call's string data, then emits the arguments
in order, linking each previous node's next_node (starting from the
function name node) to the new node.  Returns the array and the index of
the node produced.  The source unwraps node.parameters for calls; the
no-parameter-list arm repeats the call emission with an empty list. -/
def make_compiled_node_from_node : Node → List CompiledNode → List CompiledNode × Nat
  | Node.mk vt (NodeType.primitive pt) sd d idx _ f l c, node_array =>
    (node_array ++ [⟨NodeType.primitive pt, vt, d, sd, none, idx, f, l, c⟩], node_array.length)
  | Node.mk vt (NodeType.functionCall b) sd _d idx (some parameters) f l c, node_array =>
    let function_call_node := node_array.length
    let function_name_node := function_call_node + 1
    let arr1 := node_array ++
      [⟨NodeType.functionCall b, vt, some (NodeData.nodeOffset function_name_node), none, none,
        idx, f, l, c⟩]
    let arr2 := arr1 ++
      [⟨NodeType.primitive PrimitiveType.static, ValueType.functionName, some (NodeData.long 0),
        sd, none, idx, f, l, c⟩]
    (make_compiled_params parameters function_name_node arr2, function_call_node)
  | Node.mk vt (NodeType.functionCall b) sd _d idx none f l c, node_array =>
    let function_call_node := node_array.length
    let function_name_node := function_call_node + 1
    let arr1 := node_array ++
      [⟨NodeType.functionCall b, vt, some (NodeData.nodeOffset function_name_node), none, none,
        idx, f, l, c⟩]
    let arr2 := arr1 ++
      [⟨NodeType.primitive PrimitiveType.static, ValueType.functionName, some (NodeData.long 0),
        sd, none, idx, f, l, c⟩]
    (arr2, function_call_node)

/-- The parameter loop of make_compiled_node_from_node: emit each parameter
and set the previous node's next_node to the produced index. -/
def make_compiled_params : List Node → Nat → List CompiledNode → List CompiledNode
  | [], _, node_array => node_array
  | p :: rest, previous_node, node_array =>
    let r := make_compiled_node_from_node p node_array
    make_compiled_params rest r.2 (set_next_node r.1 previous_node r.2)
end

/-- The emitter driver: flatten a list of root nodes (every script's node
followed by every global's node, as the two loops in digest_tokens do) into
a single array. -/
def emit_forest_from : List Node → List CompiledNode → List CompiledNode
  | [], arr => arr
  | r :: rest, arr => emit_forest_from rest (make_compiled_node_from_node r arr).1

/-- The whole emitted node array of a compilation whose script and global
roots are the given list. -/
def emit_forest (roots : List Node) : List CompiledNode :=
  emit_forest_from roots []

mutual
/-- Number of compiled nodes a tree emits: one per primitive, two (call and
function name) plus the arguments for a call. -/
def compiledSize : Node → Nat
  | Node.mk _ (NodeType.primitive _) _ _ _ _ _ _ _ => 1
  | Node.mk _ (NodeType.functionCall _) _ _ _ (some ps) _ _ _ => 2 + compiledSizeList ps
  | Node.mk _ (NodeType.functionCall _) _ _ _ none _ _ _ => 2

/-- Sum of compiledSize over a list. -/
def compiledSizeList : List Node → Nat
  | [] => 0
  | p :: rest => compiledSize p + compiledSizeList rest
end

/-- Root indices at which consecutive argument subtrees are emitted when
emission starts at the given index. -/
def argRootIndices : Nat → List Node → List Nat
  | _, [] => []
  | start, p :: rest => start :: argRootIndices (start + compiledSize p) rest

/-- Follow next_node from the given index at most k times, collecting the
visited indices. -/
def nextChain (arr : List CompiledNode) : Nat → Nat → List Nat
  | _, 0 => []
  | start, k + 1 =>
    match arr.get? start with
    | some node =>
      match node.next_node with
      | some nxt => nxt :: nextChain arr nxt k
      | none => []
    | none => []

mutual
/-- All call nodes of a tree with their emitted index, string data and
argument subtrees, assuming emission starts at the given index. -/
def callPositions : Nat → Node → List (Nat × Option String × List Node)
  | _, Node.mk _ (NodeType.primitive _) _ _ _ _ _ _ _ => []
  | start, Node.mk _ (NodeType.functionCall _) sd _ _ (some ps) _ _ _ =>
    (start, sd, ps) :: callPositionsList (start + 2) ps
  | start, Node.mk _ (NodeType.functionCall _) sd _ _ none _ _ _ => [(start, sd, [])]

/-- The recursion of callPositions over a parameter list. -/
def callPositionsList : Nat → List Node → List (Nat × Option String × List Node)
  | _, [] => []
  | start, p :: rest => callPositions start p ++ callPositionsList (start + compiledSize p) rest
end

/-- All call nodes of a forest of roots with their emitted positions. -/
def callPositionsForest : Nat → List Node → List (Nat × Option String × List Node)
  | _, [] => []
  | start, r :: rest => callPositions start r ++ callPositionsForest (start + compiledSize r) rest

/-- The emitted shape claimed for a call node at index i holding string data
sd with argument subtrees args: its data points one past itself; there lies
a synthetic static FunctionName node carrying sd; following next_node from
that node visits exactly the argument root indices in source order; and the
node ending the chain (the last argument root, or the function name node
when there are no arguments) has no next node. -/
def CallChainOK (arr : List CompiledNode) (i : Nat) (sd : Option String)
    (args : List Node) : Prop :=
  (∃ cn, arr.get? i = some cn ∧ cn.node_type.is_function_call = true ∧
    cn.data = some (NodeData.nodeOffset (i + 1))) ∧
  (∃ fn, arr.get? (i + 1) = some fn ∧ fn.node_type = NodeType.primitive PrimitiveType.static ∧
    fn.value_type = ValueType.functionName ∧ fn.string_data = sd) ∧
  nextChain arr (i + 1) args.length = argRootIndices (i + 2) args ∧
  (∃ ln, arr.get? ((argRootIndices (i + 2) args).getLastD (i + 1)) = some ln ∧
    ln.next_node = none)

/-- Specification-side convertibility predicate transcribing, pair by pair,
the list given in claim C2. -/
def can_convert_claim (fromT toT : ValueType) : Bool :=
  fromT == toT ||
  fromT == ValueType.passthrough ||
  (fromT == ValueType.real && (toT == ValueType.short || toT == ValueType.long)) ||
  (fromT == ValueType.short && toT == ValueType.real) ||
  (fromT == ValueType.long && (toT == ValueType.short || toT == ValueType.real)) ||
  (fromT == ValueType.vehicle && toT == ValueType.unit) ||
  ((fromT == ValueType.objectName || fromT == ValueType.object || fromT == ValueType.unit ||
    fromT == ValueType.vehicle || fromT == ValueType.weapon || fromT == ValueType.scenery ||
    fromT == ValueType.device) && (toT == ValueType.object || toT == ValueType.objectList))

/-- A script record with arbitrary content, used to build large script lists
for the limit check. -/
def dummyScript : ScriptRec :=
  { name := "s", return_type := ValueType.void, script_type := ScriptType.startup,
    pos := ⟨0, 7, 3⟩ }

/-- The script parameter token (real a) used for claim C9. -/
def c9ParamToken : Token :=
  Token.mk 1 5 0 "" (some [Token.mk 1 6 0 "real" none, Token.mk 1 11 0 "a" none])

/-- The script name token used for claim C9. -/
def c9NameToken : Token := Token.mk 1 2 0 "f" none

/-- The variable a leaf token resolves to, mirroring the resolution order of
the leaf case of create_node_from_tokens: the first matching local
parameter, else the visible global of that name. -/
def leafVariable (token : Token) (aps : List ScriptParameter) (ags : List GlobalDef) :
    Option (ValueType × PrimitiveType) :=
  match parameter_index (asciiLower token.string) aps with
  | some n => (aps.get? n).map (fun p => (p.value_type, PrimitiveType.local))
  | none => (lookupGlobal ags (asciiLower token.string)).map
      (fun g => (g.value_type, PrimitiveType.global))

/-- The catalog entry for print used in the C1 example: declared return
Void with one String parameter. -/
def c1PrintFn : FunctionDef :=
  { name := "print", return_type := ValueType.void,
    parameters := [⟨ValueType.string, false, false, false⟩] }

/-- The call token of the C1 example, (print "hello"). -/
def c1CallToken : Token :=
  Token.mk 1 1 0 "" (some [Token.mk 1 1 0 "print" none, Token.mk 1 2 0 "hello" none])

/-- The argument token of the C1 example. -/
def c1ArgToken : Token := Token.mk 1 2 0 "hello" none

/-- The catalog entry for set used in the C7 example. -/
def c7SetFn : FunctionDef :=
  { name := "set", return_type := ValueType.passthrough,
    parameters := [⟨ValueType.passthrough, false, false, false⟩,
      ⟨ValueType.passthrough, false, false, false⟩] }

/-- The call token of the C7 example, (set x 5). -/
def c7CallToken : Token :=
  Token.mk 1 1 0 "" (some [Token.mk 1 1 0 "set" none, Token.mk 1 2 0 "x" none,
    Token.mk 1 3 0 "5" none])

/-- The first argument token of the C7 example. -/
def c7Arg0 : Token := Token.mk 1 2 0 "x" none

/-- The second argument token of the C7 example. -/
def c7Arg1 : Token := Token.mk 1 3 0 "5" none

/-- The + engine function of the C5 example: one many-repeated Passthrough
parameter, Real return, number passthrough. -/
def c5PlusFn : FunctionDef :=
  { name := "+", return_type := ValueType.real,
    parameters := [⟨ValueType.passthrough, true, false, false⟩],
    number_passthrough := true }

/-- First argument token of the C5 example. -/
def c5Tok1 : Token := Token.mk 1 2 0 "1" none

/-- Second argument token of the C5 example. -/
def c5Tok2 : Token := Token.mk 1 3 0 "2" none

/-- The call token of the C5 example, (+ 1 2). -/
def c5CallToken : Token :=
  Token.mk 1 1 0 "" (some [Token.mk 1 1 0 "+" none, c5Tok1, c5Tok2])

def EmitNodeSpec (n : Node) : Prop :=
  ∀ arr : List CompiledNode,
    (make_compiled_node_from_node n arr).2 = arr.length ∧
    (make_compiled_node_from_node n arr).1.length = arr.length + compiledSize n ∧
    (∀ j, j < arr.length → (make_compiled_node_from_node n arr).1.get? j = arr.get? j) ∧
    (∃ root, (make_compiled_node_from_node n arr).1.get? arr.length = some root ∧
      root.next_node = none) ∧
    (∀ pos ∈ callPositions arr.length n,
      CallChainOK (make_compiled_node_from_node n arr).1 pos.1 pos.2.1 pos.2.2)

def EmitParamsSpec (ps : List Node) : Prop :=
  ∀ (prev : Nat) (arr : List CompiledNode) (c : CompiledNode),
    arr.get? prev = some c → prev < arr.length →
    (make_compiled_params ps prev arr).length = arr.length + compiledSizeList ps ∧
    (∀ j, j ≠ prev → j < arr.length → (make_compiled_params ps prev arr).get? j = arr.get? j) ∧
    (ps = [] → make_compiled_params ps prev arr = arr) ∧
    (ps ≠ [] → (make_compiled_params ps prev arr).get? prev =
      some { c with next_node := some arr.length }) ∧
    nextChain (make_compiled_params ps prev arr) prev ps.length = argRootIndices arr.length ps ∧
    (ps ≠ [] → ∃ ln, (make_compiled_params ps prev arr).get?
        ((argRootIndices arr.length ps).getLastD prev) = some ln ∧ ln.next_node = none) ∧
    (∀ pos ∈ callPositionsList arr.length ps,
      CallChainOK (make_compiled_params ps prev arr) pos.1 pos.2.1 pos.2.2)

def callCompiledNode (b : Bool) (vt : ValueType) (fnn : Nat) (idx : Option Nat)
    (fl ln cl : Nat) : CompiledNode :=
  ⟨NodeType.functionCall b, vt, some (NodeData.nodeOffset fnn), none, none, idx, fl, ln, cl⟩

def fnameCompiledNode (sd : Option String) (idx : Option Nat) (fl ln cl : Nat) : CompiledNode :=
  ⟨NodeType.primitive PrimitiveType.static, ValueType.functionName, some (NodeData.long 0), sd,
    none, idx, fl, ln, cl⟩

/-- The argument node of the C4 example, the literal 5. -/
def c4Arg : Node :=
  Node.mk ValueType.short (NodeType.primitive PrimitiveType.static) (some "5")
    (some (NodeData.short 5)) none none 0 1 2

/-- The root node of the C4 example, (begin 5). -/
def c4Root : Node :=
  Node.mk ValueType.void (NodeType.functionCall true) (some "begin") none none
    (some [c4Arg]) 0 1 1

theorem except_bind_ok {ε α β : Type} {x : Except ε α} {f : α → Except ε β} {b : β} :
    x >>= f = .ok b ↔ ∃ a, x = .ok a ∧ f a = .ok b := by
  cases x <;> simp [Bind.bind, Except.bind]

theorem get?_replicate {α : Type} (a : α) :
    ∀ (n i : Nat), (List.replicate n a).get? i = if i < n then some a else none := by
  intro n
  induction n with
  | zero =>
    intro i
    rw [if_neg (Nat.not_lt_zero i)]
    cases i <;> rfl
  | succ n ih =>
    intro i
    cases i with
    | zero => rw [if_pos (Nat.succ_pos n)]; rfl
    | succ i =>
      have h2 : (List.replicate (n + 1) a).get? (i + 1) = (List.replicate n a).get? i := rfl
      rw [h2, ih i]
      by_cases h : i < n
      · rw [if_pos h, if_pos (by omega)]
      · rw [if_neg h, if_neg (by omega)]

theorem find_some_mem {α : Type} (p : α → Bool) :
    ∀ (l : List α) (x : α), x ∈ l → p x = true → (l.find? p).isSome = true := by
  intro l
  induction l with
  | nil => intro x hx; cases hx
  | cons y ys ih =>
    intro x hx hp
    cases hx with
    | head => simp [List.find?, hp]
    | tail _ hmem =>
      cases hy : p y with
      | true => simp [List.find?, hy]
      | false => simpa [List.find?, hy] using ih x hmem hp

theorem findSome_some_of_mem {α β : Type} (f : α → Option β) :
    ∀ (l : List α) (x : α), x ∈ l → (f x).isSome = true → (l.findSome? f).isSome = true := by
  intro l
  induction l with
  | nil => intro x hx; cases hx
  | cons y ys ih =>
    intro x hx hfx
    rw [List.findSome?]
    cases hf : f y with
    | some b => rfl
    | none =>
      rcases List.mem_cons.mp hx with hxy | hmem
      · subst hxy; rw [hf] at hfx; cases hfx
      · exact ih x hmem hfx

theorem findSome_some_spec {α β : Type} (f : α → Option β) :
    ∀ (l : List α) (b : β), l.findSome? f = some b → ∃ x ∈ l, f x = some b := by
  intro l
  induction l with
  | nil => intro b h; simp [List.findSome?] at h
  | cons y ys ih =>
    intro b h
    cases hf : f y with
    | some c =>
      rw [List.findSome?] at h
      rw [hf] at h
      cases h
      exact ⟨y, List.mem_cons_self y ys, hf⟩
    | none =>
      rw [List.findSome?] at h
      rw [hf] at h
      obtain ⟨x, hx, hfx⟩ := ih b h
      exact ⟨x, List.mem_cons_of_mem y hx, hfx⟩

theorem find_some_spec {α : Type} (p : α → Bool) :
    ∀ (l : List α) (x : α), l.find? p = some x → p x = true := by
  intro l
  induction l with
  | nil => intro x h; simp [List.find?] at h
  | cons y ys ih =>
    intro x h
    cases hy : p y with
    | true =>
      rw [List.find?, hy] at h
      cases h
      exact hy
    | false =>
      rw [List.find?, hy] at h
      exact ih x h

theorem one_filter_get? {α : Type} (p : α → Bool) :
    ∀ (l : List α), 1 ≤ (l.filter p).length →
      ∃ i a, l.get? i = some a ∧ p a = true := by
  intro l
  induction l with
  | nil => intro h; simp at h
  | cons x xs ih =>
    intro h
    cases hx : p x with
    | true => exact ⟨0, x, rfl, hx⟩
    | false =>
      simp only [List.filter_cons, hx, if_false, Bool.false_eq_true] at h
      obtain ⟨i, a, hget, hpa⟩ := ih (by simpa using h)
      exact ⟨i + 1, a, hget, hpa⟩

theorem two_filter_get? {α : Type} (p : α → Bool) :
    ∀ (l : List α), 2 ≤ (l.filter p).length →
      ∃ i j a b, i < j ∧ l.get? i = some a ∧ l.get? j = some b ∧ p a = true ∧ p b = true := by
  intro l
  induction l with
  | nil => intro h; simp at h
  | cons x xs ih =>
    intro h
    cases hx : p x with
    | true =>
      simp only [List.filter_cons, hx, if_true, List.length_cons] at h
      obtain ⟨i, a, hget, hpa⟩ := one_filter_get? p xs (by omega)
      exact ⟨0, i + 1, x, a, Nat.succ_pos i, rfl, hget, hx, hpa⟩
    | false =>
      simp only [List.filter_cons, hx, if_false, Bool.false_eq_true] at h
      obtain ⟨i, j, a, b, hij, hgi, hgj, hpa, hpb⟩ := ih (by simpa using h)
      exact ⟨i + 1, j + 1, a, b, by omega, hgi, hgj, hpa, hpb⟩

theorem filter_eraseIdx_of_get? {α : Type} (p : α → Bool) :
    ∀ (l : List α) (i : Nat) (a : α), l.get? i = some a → p a = false →
      (l.eraseIdx i).filter p = l.filter p := by
  intro l
  induction l with
  | nil => intro i a h; simp at h
  | cons x xs ih =>
    intro i a h hpa
    cases i with
    | zero =>
      cases h
      simp [List.eraseIdx, List.filter_cons, hpa]
    | succ i =>
      simp only [List.get?] at h
      simp only [List.eraseIdx, List.filter_cons]
      rw [ih i a h hpa]

theorem mem_of_get? {α : Type} : ∀ {l : List α} {i : Nat} {a : α}, l.get? i = some a → a ∈ l := by
  intro l
  induction l with
  | nil => intro i a h; simp at h
  | cons x xs ih =>
    intro i a h
    cases i with
    | zero => cases h; exact List.mem_cons_self x xs
    | succ i => exact List.mem_cons_of_mem x (ih h)

theorem get?_lt_length {α : Type} : ∀ {l : List α} {i : Nat} {a : α},
    l.get? i = some a → i < l.length := by
  intro l
  induction l with
  | nil => intro i a h; simp at h
  | cons x xs ih =>
    intro i a h
    cases i with
    | zero => simp
    | succ i => simpa [Nat.succ_lt_succ_iff] using ih h

/-- C2 counterexample: the code converts Boolean into Void (the
anything-to-Void arm of can_convert_to), but the pair is not among those the
claim lists, so the claimed exact characterization fails at
(Boolean, Void). -/
theorem c2_counterexample :
    ValueType.can_convert_to ValueType.boolean ValueType.void = true ∧
    can_convert_claim ValueType.boolean ValueType.void = false := by decide

set_option maxHeartbeats 1000000 in
/-- C2 (amended): can_convert(from, to) holds exactly when the pair is one
of those the claim lists, or the target type is Void (anything converts to
Void). -/
theorem c2_theorem :
    ∀ fromT toT, ValueType.can_convert_to fromT toT =
      (can_convert_claim fromT toT || toT == ValueType.void) := by decide

/-- C8: the script limit check accepts 32767 scripts; at exactly 32768
scripts the count exceeds i16::MAX, but building the error message indexes
scripts[32768], which is out of bounds, so the code panics instead of
returning the error the claim describes; from 32769 scripts on the check
returns the error. -/
theorem c8_code_evaluation :
    check_script_limit (List.replicate 32767 dummyScript) = LimitOutcome.ok ∧
    check_script_limit (List.replicate 32768 dummyScript) =
      LimitOutcome.panicIndexOutOfBounds ∧
    check_script_limit (List.replicate 32769 dummyScript) =
      LimitOutcome.limitError ⟨0, 7, 3⟩ 32769 := by
  refine ⟨?_, ?_, ?_⟩
  · unfold check_script_limit
    rw [List.length_replicate]
    norm_num
  · unfold check_script_limit
    rw [List.length_replicate, if_pos (by norm_num), get?_replicate]
    norm_num
  · unfold check_script_limit
    rw [List.length_replicate, if_pos (by norm_num), get?_replicate]
    norm_num [dummyScript]

/-- C9: evaluation of the parameter block parsing at the failing input.
HaloCEA allows at most 16 script parameters, yet a static script declaring
17 parameters passes the check (the compared count is computed as the
number of declared parameters minus one), while 18 are rejected.  This
contradicts the claim that any count exceeding the target limit fails. -/
theorem c9_code_evaluation :
    CompileTarget.haloCEA.maximum_script_parameters = 16 ∧
    parse_script_header_parameters CompileTarget.haloCEA ScriptType.static
      (Token.mk 1 1 0 "" (some (c9NameToken :: List.replicate 17 c9ParamToken)))
      (c9NameToken :: List.replicate 17 c9ParamToken) =
      Except.ok ("f", List.replicate 17 { name := "a", value_type := ValueType.real }) ∧
    parse_script_header_parameters CompileTarget.haloCEA ScriptType.static
      (Token.mk 1 1 0 "" (some (c9NameToken :: List.replicate 18 c9ParamToken)))
      (c9NameToken :: List.replicate 18 c9ParamToken) =
      Except.error (.tooManyScriptParameters ⟨0, 1, 2⟩ 16) :=
  ⟨rfl, rfl, rfl⟩

/-- C6 counterexample: an input whose scripts are two stubs named s (and no
static script of that name) is rejected by stub removal with the
cannot-replace error; the two stubs are not both retained. -/
theorem c6_counterexample :
    remove_stubs 3 [⟨"s", ValueType.short, ScriptType.stub, ⟨0, 1, 1⟩⟩,
        ⟨"s", ValueType.short, ScriptType.stub, ⟨0, 2, 1⟩⟩] =
      Except.error (.stubNotReplaceable ⟨0, 1, 1⟩ "s") := rfl

theorem find_stub_conflict_some {scripts : List ScriptRec} {i j : Nat}
    (h : find_stub_conflict scripts = some (i, j)) :
    ∃ si sj, scripts.get? i = some si ∧ scripts.get? j = some sj ∧
      si.script_type = ScriptType.stub ∧ sj.name = si.name ∧ j ≠ i := by
  obtain ⟨x, _, hfx⟩ := findSome_some_spec _ _ _ h
  cases hgx : scripts.get? x with
  | none => rw [hgx] at hfx; cases hfx
  | some sx =>
    rw [hgx] at hfx
    have hfx2 : (if sx.script_type = ScriptType.stub then
        Option.map (fun j => (x, j)) (find_partner scripts x sx) else none) = some (i, j) := hfx
    by_cases hstub : sx.script_type = ScriptType.stub
    · rw [if_pos hstub] at hfx2
      cases hpart : find_partner scripts x sx with
      | none => rw [hpart] at hfx2; cases hfx2
      | some j2 =>
        rw [hpart] at hfx2
        cases hfx2
        have hp := find_some_spec _ _ _ hpart
        simp only [Bool.and_eq_true, decide_eq_true_eq] at hp
        obtain ⟨hne, hany⟩ := hp
        cases hgj : scripts.get? j with
        | none => rw [hgj] at hany; cases hany
        | some sj =>
          rw [hgj] at hany
          have hbeq : (sj.name == sx.name) = true := hany
          exact ⟨sx, sj, hgx, rfl, hstub, beq_iff_eq.mp hbeq, hne⟩
    · rw [if_neg hstub] at hfx2
      cases hfx2

theorem find_stub_conflict_isSome {scripts : List ScriptRec} {i j : Nat} {si sj : ScriptRec}
    (hgi : scripts.get? i = some si) (hgj : scripts.get? j = some sj)
    (hstub : si.script_type = ScriptType.stub) (hname : sj.name = si.name) (hij : j ≠ i) :
    (find_stub_conflict scripts).isSome = true := by
  apply findSome_some_of_mem _ _ i
  · exact List.mem_range.mpr (get?_lt_length hgi)
  · have hpart : (find_partner scripts i si).isSome = true := by
      apply find_some_mem _ _ j
      · exact List.mem_range.mpr (get?_lt_length hgj)
      · simp only [Bool.and_eq_true, decide_eq_true_eq, hgj]
        refine ⟨hij, ?_⟩
        show (sj.name == si.name) = true
        exact beq_iff_eq.mpr hname
    simp only [hgi, if_pos hstub]
    cases hp : find_partner scripts i si with
    | none => rw [hp] at hpart; cases hpart
    | some j2 => simp

/-- C6 (amended): if the input contains two Stub scripts with the same name
and no script of that name is Static, the stub removal pass fails with an
error (the stub is seen as replaced by a non-static script, or a same-named
static elsewhere mismatches); the two stubs are never both retained with
success. -/
theorem c6_theorem (fuel : Nat) (scripts : List ScriptRec) (n : String)
    (htwo : 2 ≤ (scripts.filter
      (fun s => s.name == n && s.script_type == ScriptType.stub)).length)
    (hnostatic : ∀ s ∈ scripts, s.name = n → s.script_type ≠ ScriptType.static)
    (hfuel : scripts.length < fuel) :
    ∃ e, remove_stubs fuel scripts = .error e := by
  induction fuel generalizing scripts with
  | zero => omega
  | succ fuel ih =>
    cases hconf : find_stub_conflict scripts with
    | none =>
      exfalso
      obtain ⟨i, j, a, b, hij, hgi, hgj, hpa, hpb⟩ := two_filter_get? _ scripts htwo
      simp only [Bool.and_eq_true, beq_iff_eq] at hpa hpb
      have := find_stub_conflict_isSome hgi hgj hpa.2 (hpb.1.trans hpa.1.symm) (by omega)
      rw [hconf] at this
      cases this
    | some p =>
      obtain ⟨i, j⟩ := p
      obtain ⟨si, sj, hgi, hgj, hstub, hname, hji⟩ := find_stub_conflict_some hconf
      simp only [remove_stubs, hconf, hgi, hgj]
      by_cases hstatic : sj.script_type = ScriptType.static
      · rw [if_neg (by simp [hstatic])]
        have hsjn : sj.name ≠ n := fun hn => hnostatic sj (mem_of_get? hgj) hn hstatic
        have hsin : si.name ≠ n := fun hn => hsjn (hname.trans hn)
        by_cases hret : sj.return_type = si.return_type
        · rw [if_neg (by simp [hret])]
          apply ih
          · rw [filter_eraseIdx_of_get? _ scripts i si hgi (by simp [hsin])]
            exact htwo
          · intro s hs hn
            exact hnostatic s ((List.eraseIdx_sublist scripts i).subset hs) hn
          · have hi : i < scripts.length := get?_lt_length hgi
            have hlen := List.length_eraseIdx scripts i
            rw [if_pos hi] at hlen
            omega
        · rw [if_pos hret]
          exact ⟨_, rfl⟩
      · rw [if_pos hstatic]
        exact ⟨_, rfl⟩

/-- C6 witness for the amended theorem, applying it to the two-stub input. -/
theorem c6_theorem_witness :
    ∃ e, remove_stubs 3 [⟨"s", ValueType.short, ScriptType.stub, ⟨0, 1, 1⟩⟩,
        ⟨"s", ValueType.short, ScriptType.stub, ⟨0, 2, 1⟩⟩] = .error e :=
  c6_theorem 3 [⟨"s", ValueType.short, ScriptType.stub, ⟨0, 1, 1⟩⟩,
      ⟨"s", ValueType.short, ScriptType.stub, ⟨0, 2, 1⟩⟩] "s"
    (by decide) (by decide) (by decide)

/-- C3 counterexample: the leaf eleven resolves to a global of declared type
Short, yet analyzed with expected type Real the node's value type is Real,
not the variable's declared Short as the claim states. -/
theorem c3_counterexample :
    (create_node_from_tokens 1 (Token.mk 1 1 0 "eleven" none) ValueType.real [] []
      [⟨"eleven", ValueType.short⟩]).map Node.value_type = Except.ok ValueType.real ∧
    ValueType.real ≠ ValueType.short := ⟨rfl, by decide⟩

/-- C3 (amended): a leaf resolving to a local parameter or visible global of
declared type T becomes a Primitive(Local or Global) node whose value type
is the expected type, with T used instead exactly when the expected type is
Passthrough; convertibility of T to the expected type is checked and failure
is the conversion error. -/
theorem c3_theorem (fuel : Nat) (token : Token) (E : ValueType)
    (aps : List ScriptParameter) (afs : List FunctionDef) (ags : List GlobalDef)
    (T : ValueType) (k : PrimitiveType)
    (hleaf : token.children = none)
    (hres : leafVariable token aps ags = some (T, k)) :
    create_node_from_tokens (fuel + 1) token E aps afs ags =
      (if E = ValueType.passthrough then
        Except.ok (Node.mk T (NodeType.primitive k) (some (asciiLower token.string)) none none
          none token.file token.line token.column)
      else if T.can_convert_to E then
        Except.ok (Node.mk E (NodeType.primitive k) (some (asciiLower token.string)) none none
          none token.file token.line token.column)
      else Except.error (.globalConvertError (tokPos token) (asciiLower token.string) T E)) := by
  cases token with
  | mk line column file str ch =>
    simp only [Token.children] at hleaf
    subst hleaf
    rw [leafVariable] at hres
    simp only [Token.string] at hres
    simp only [create_node_from_tokens, Token.children, Token.string, Token.line, Token.column,
      Token.file, tokPos]
    cases hpi : parameter_index (asciiLower str) aps with
    | some n =>
      simp only [hpi] at hres ⊢
      cases hg : aps.get? n with
      | none => rw [hg] at hres; simp at hres
      | some p =>
        simp only [hg, Option.map_some'] at hres ⊢
        simp only [Option.some.injEq, Prod.mk.injEq] at hres
        obtain ⟨hT, hk⟩ := hres
        subst hT
        subst hk
        rw [calculate_type]
        by_cases hE : E = ValueType.passthrough
        · simp [hE]
        · rw [if_neg hE, if_neg hE]
          by_cases hcc : ValueType.can_convert_to p.value_type E = true
          · simp [hcc]
          · simp only [Bool.not_eq_true] at hcc
            simp [hcc, tokPos, Token.file, Token.line, Token.column]
    | none =>
      simp only [hpi] at hres ⊢
      cases hg : lookupGlobal ags (asciiLower str) with
      | none => rw [hg] at hres; simp at hres
      | some g =>
        simp only [hg, Option.map_some'] at hres ⊢
        simp only [Option.some.injEq, Prod.mk.injEq] at hres
        obtain ⟨hT, hk⟩ := hres
        subst hT
        subst hk
        rw [calculate_type]
        by_cases hE : E = ValueType.passthrough
        · simp [hE]
        · rw [if_neg hE, if_neg hE]
          by_cases hcc : ValueType.can_convert_to g.value_type E = true
          · simp [hcc]
          · simp only [Bool.not_eq_true] at hcc
            simp [hcc, tokPos, Token.file, Token.line, Token.column]

/-- C3 witness: the amended theorem applied to a Short global analyzed with
expected type Real. -/
theorem c3_theorem_witness :
    create_node_from_tokens 1 (Token.mk 1 1 0 "eleven" none) ValueType.real [] []
      [⟨"eleven", ValueType.short⟩] =
      Except.ok (Node.mk ValueType.real (NodeType.primitive PrimitiveType.global)
        (some "eleven") none none none 0 1 1) := by
  have h := c3_theorem 0 (Token.mk 1 1 0 "eleven" none) ValueType.real [] []
    [⟨"eleven", ValueType.short⟩] ValueType.short PrimitiveType.global rfl rfl
  simpa using h

theorem finish_ok_value_type (function : FunctionDef) (function_name : String)
    (fct : Token) (E final_type : ValueType) (tokens : List Token)
    (afs : List FunctionDef) (params1 : List Node) (pt : Option ValueType) (node : Node)
    (h : finish_function_call function function_name fct E final_type tokens afs params1 pt =
      .ok node) : node.value_type = final_type := by
  simp only [finish_function_call] at h
  split at h
  · cases h
  · split at h
    · cases h
    · rw [except_bind_ok] at h
      obtain ⟨params2, _, h⟩ := h
      split at h
      · cases h
      · rw [Except.ok.injEq] at h
        rw [← h]
        simp only [Node.value_type]

theorem function_ok_value_type (rec : Token → ValueType → Except CErr Node)
    (hrec : ∀ t e n, e ≠ ValueType.passthrough → rec t e = .ok n → n.value_type = e)
    (function_name : String) (fct : Token) (E : ValueType) (tokens : List Token)
    (aps : List ScriptParameter) (afs : List FunctionDef) (ags : List GlobalDef) (node : Node)
    (hE : E ≠ ValueType.passthrough)
    (h : create_node_from_function rec function_name fct E tokens aps afs ags = .ok node) :
    node.value_type = E := by
  unfold create_node_from_function at h
  by_cases hcond : function_name = "cond"
  · rw [if_pos hcond] at h
    cases tokens with
    | nil => cases h
    | cons t ts =>
      have h3 : (do
          let if_tree ← cond_arms (t :: ts)
          rec (nest_if_tree if_tree) E) = Except.ok node := h
      rw [except_bind_ok] at h3
      obtain ⟨arms, _, hr⟩ := h3
      exact hrec _ _ _ hE hr
  · rw [if_neg hcond] at h
    cases hlf : lookupFunction afs function_name with
    | none => rw [hlf] at h; cases h
    | some function =>
      rw [hlf] at h
      have h2 : (if tokens.length < function.get_minimum_parameter_count then
          (Except.error (CErr.tooFewParameters (tokPos fct) function_name
            function.get_minimum_parameter_count tokens.length) : Except CErr Node)
        else do
          let passthrough_type ← passthrough_seed function_name fct function.return_type
            (if E = ValueType.passthrough then function.return_type else E) tokens ags
          let pr ← process_parameters rec function function_name tokens.length tokens 0
            passthrough_type
          let parameters1 ← apply_set_fixup function_name tokens pr.1 aps
          finish_function_call function function_name fct E
            (if E = ValueType.passthrough then function.return_type else E) tokens afs
            parameters1 pr.2) = .ok node := h
      clear h
      split at h2
      · cases h2
      · rw [except_bind_ok] at h2
        obtain ⟨pt0, _, h2⟩ := h2
        rw [except_bind_ok] at h2
        obtain ⟨pr, _, h2⟩ := h2
        rw [except_bind_ok] at h2
        obtain ⟨params1, _, h2⟩ := h2
        exact (finish_ok_value_type _ _ _ _ _ _ _ _ _ _ h2).trans (by simp [hE])

theorem tokens_ok_value_type : ∀ (fuel : Nat) (token : Token) (E : ValueType)
    (aps : List ScriptParameter) (afs : List FunctionDef) (ags : List GlobalDef) (node : Node),
    E ≠ ValueType.passthrough →
    create_node_from_tokens fuel token E aps afs ags = .ok node → node.value_type = E := by
  intro fuel
  induction fuel with
  | zero =>
    intro token E aps afs ags node hE h
    cases h
  | succ fuel ih =>
    intro token E aps afs ags node hE h
    cases token with
    | mk line column file str ch =>
      cases ch with
      | some children =>
        cases children with
        | nil => cases h
        | cons c0 rest =>
          have h2 : create_node_from_function
              (fun t e => create_node_from_tokens fuel t e aps afs ags)
              (asciiLower c0.string) (Token.mk line column file str (some (c0 :: rest))) E rest
              aps afs ags = .ok node := h
          exact function_ok_value_type _
            (fun t e n he hh => ih t e aps afs ags n he hh) _ _ _ _ _ _ _ _ hE h2
      | none =>
        have h2 : (match parameter_index (asciiLower str) aps with
          | some n =>
            match aps.get? n with
            | none => (Except.error CErr.panicIndexOutOfBounds : Except CErr Node)
            | some p =>
              match calculate_type (Token.mk line column file str none) (asciiLower str) E
                  p.value_type with
              | .error e => .error e
              | .ok final_type =>
                .ok (Node.mk final_type (NodeType.primitive PrimitiveType.local)
                      (some (asciiLower str)) none none none file line column)
          | none =>
            match lookupGlobal ags (asciiLower str) with
            | some global =>
              match calculate_type (Token.mk line column file str none) (asciiLower str) E
                  global.value_type with
              | .error e => .error e
              | .ok final_type =>
                .ok (Node.mk final_type (NodeType.primitive PrimitiveType.global)
                      (some (asciiLower str)) none none none file line column)
            | none =>
              .ok (Node.mk E (NodeType.primitive PrimitiveType.static)
                    (some (asciiLower str)) none none none file line column)) = .ok node := h
        clear h
        split at h2
        · split at h2
          · cases h2
          · split at h2
            · cases h2
            · rename_i final_type heq
              unfold calculate_type at heq
              rw [if_neg hE] at heq
              split at heq
              · rw [Except.ok.injEq] at heq
                rw [Except.ok.injEq] at h2
                rw [← h2]
                simp only [Node.value_type]
                exact heq.symm
              · cases heq
        · split at h2
          · split at h2
            · cases h2
            · rename_i final_type heq
              unfold calculate_type at heq
              rw [if_neg hE] at heq
              split at heq
              · rw [Except.ok.injEq] at heq
                rw [Except.ok.injEq] at h2
                rw [← h2]
                simp only [Node.value_type]
                exact heq.symm
              · cases heq
          · rw [Except.ok.injEq] at h2
            rw [← h2]
            simp only [Node.value_type]

/-- C1 counterexample: print declares return type Void and Void does not
convert to Short, yet analyzing (print "hello") with expected type Short
succeeds and the call's final value type is Short, not the declared
return, and no conversion error is raised. -/
theorem c1_counterexample :
    (create_node_from_tokens 2 c1CallToken ValueType.short [] [c1PrintFn] []).map
      Node.value_type = Except.ok ValueType.short ∧
    ValueType.short ≠ ValueType.void ∧
    ValueType.can_convert_to ValueType.void ValueType.short = false :=
  ⟨rfl, by decide, by decide⟩

/-- C1 (amended): for every call expression analyzed with an expected type E
that is not Passthrough, the call node's final value type is E regardless of
the callee's declared return type (the declared return is used only when E
is Passthrough), and consequently the final-type convertibility check
against E compares E with itself and never fails. -/
theorem c1_theorem (fuel : Nat) (function_name : String) (fct : Token) (E : ValueType)
    (tokens : List Token) (aps : List ScriptParameter) (afs : List FunctionDef)
    (ags : List GlobalDef) {node : Node}
    (hE : E ≠ ValueType.passthrough)
    (h : create_node_from_function (analyzeRec fuel aps afs ags) function_name fct E tokens
      aps afs ags = .ok node) :
    (create_node_from_function (analyzeRec fuel aps afs ags) function_name fct E tokens
      aps afs ags).map Node.value_type = Except.ok E := by
  rw [h]
  have hv := function_ok_value_type (analyzeRec fuel aps afs ags)
    (fun t e n he hh => tokens_ok_value_type fuel t e aps afs ags n he hh)
    function_name fct E tokens aps afs ags node hE h
  rw [show (Except.ok node).map Node.value_type = Except.ok node.value_type from rfl, hv]

/-- C1 witness: the amended theorem applied to the print call analyzed with
expected type Short. -/
theorem c1_theorem_witness :
    (create_node_from_function (analyzeRec 1 [] [c1PrintFn] []) "print" c1CallToken
      ValueType.short [c1ArgToken] [] [c1PrintFn] []).map Node.value_type =
      Except.ok ValueType.short :=
  c1_theorem 1 "print" c1CallToken ValueType.short [c1ArgToken] [] [c1PrintFn] []
    (by decide) rfl

theorem node_mutual_induction
    (P : Node → Prop) (Q : List Node → Prop)
    (hmk : ∀ vt nt sd d idx ps f l c, Q (ps.getD []) → P (Node.mk vt nt sd d idx ps f l c))
    (hnil : Q [])
    (hcons : ∀ p rest, P p → Q rest → Q (p :: rest)) :
    (∀ n, P n) ∧ (∀ l, Q l) := by
  have key : ∀ k : Nat, (∀ n : Node, sizeOf n ≤ k → P n) ∧
      (∀ l : List Node, sizeOf l ≤ k → Q l) := by
    intro k
    induction k with
    | zero =>
      constructor
      · intro n hn
        cases n with
        | mk vt nt sd d idx ps f l c => simp at hn
      · intro l hl
        cases l with
        | nil => exact hnil
        | cons p rest => simp at hl
    | succ k ih =>
      constructor
      · intro n hn
        cases n with
        | mk vt nt sd d idx ps f l c =>
          cases ps with
          | none => exact hmk vt nt sd d idx none f l c hnil
          | some args =>
            apply hmk
            simp only [Option.getD]
            apply ih.2
            simp at hn
            omega
      · intro l hl
        cases l with
        | nil => exact hnil
        | cons p rest =>
          simp at hl
          exact hcons p rest (ih.1 p (by omega)) (ih.2 rest (by omega))
  exact ⟨fun n => (key (sizeOf n)).1 n (le_refl _), fun l => (key (sizeOf l)).2 l (le_refl _)⟩

theorem find_uninitialized_globals_eq_filter :
    (∀ n : Node, ∀ gs : List GlobalRec, find_uninitialized_globals n gs =
      (globalRefs n).filter (fun w => gs.any (fun g => g.name = w.name))) ∧
    (∀ l : List Node, ∀ gs : List GlobalRec, find_uninitialized_globals_list l gs =
      (globalRefsList l).filter (fun w => gs.any (fun g => g.name = w.name))) := by
  apply node_mutual_induction
    (fun n => ∀ gs, find_uninitialized_globals n gs =
      (globalRefs n).filter (fun w => gs.any (fun g => g.name = w.name)))
    (fun l => ∀ gs, find_uninitialized_globals_list l gs =
      (globalRefsList l).filter (fun w => gs.any (fun g => g.name = w.name)))
  · intro vt nt sd d idx ps f l c hq gs
    cases nt with
    | primitive pt =>
      cases pt
      · simp [find_uninitialized_globals, globalRefs]
      · simp [find_uninitialized_globals, globalRefs]
      · rw [find_uninitialized_globals, globalRefs]
        rw [List.filter]
        by_cases hany : gs.any (fun g => g.name = sd.getD "") = true
        · rw [if_pos hany]
          rw [hany]
          rfl
        · simp only [Bool.not_eq_true] at hany
          rw [if_neg (by rw [hany]; exact Bool.false_ne_true)]
          rw [hany]
          rfl
    | functionCall b =>
      cases ps with
      | none => simp [find_uninitialized_globals, globalRefs]
      | some args =>
        rw [find_uninitialized_globals, globalRefs]
        exact hq gs
  · intro gs
    simp [find_uninitialized_globals_list, globalRefsList]
  · intro p rest hp hq gs
    rw [find_uninitialized_globals_list, globalRefsList, List.filter_append, hp gs, hq gs]

/-- C10: the warnings produced by the uninitialized global pass are exactly,
in order, for the i-th user global, its Primitive(Global) references whose
name matches a user global at positions i..N-1, inclusive of the i-th
global itself. -/
theorem c10_theorem : ∀ gs : List GlobalRec,
    all_uninitialized_global_warnings gs = uninitializedWarningsSpec gs := by
  intro gs
  induction gs with
  | nil => rfl
  | cons g rest ih =>
    rw [all_uninitialized_global_warnings, uninitializedWarningsSpec,
      find_uninitialized_globals_eq_filter.1 g.node (g :: rest), ih]

theorem except_error_bind {ε α β : Type} (e : ε) (f : α → Except ε β) :
    (Except.error e : Except ε α) >>= f = .error e := rfl

theorem head?_map' {α β : Type} (f : α → β) (l : List α) :
    (l.map f).head? = l.head?.map f := by
  cases l <;> rfl

theorem parse_one_literal_index (function : FunctionDef) (afs : List FunctionDef)
    (tk : Token) (n : Node) (idx : Nat) (fpt : ValueType) (out : Node)
    (h : parse_one_literal function afs tk n idx fpt = .ok out) : out.index = n.index := by
  unfold parse_one_literal at h
  by_cases hnt : n.node_type = NodeType.primitive PrimitiveType.static
  · rw [if_pos hnt] at h
    simp only [except_bind_ok] at h
    obtain ⟨r, _, h⟩ := h
    rw [Except.ok.injEq] at h
    rw [← h]; rfl
  · rw [if_neg hnt] at h
    rw [Except.ok.injEq] at h
    rw [← h]

theorem parse_one_literal_node_type (function : FunctionDef) (afs : List FunctionDef)
    (tk : Token) (n : Node) (idx : Nat) (fpt : ValueType) (out : Node)
    (h : parse_one_literal function afs tk n idx fpt = .ok out) :
    out.node_type = n.node_type := by
  unfold parse_one_literal at h
  by_cases hnt : n.node_type = NodeType.primitive PrimitiveType.static
  · rw [if_pos hnt] at h
    simp only [except_bind_ok] at h
    obtain ⟨r, _, h⟩ := h
    rw [Except.ok.injEq] at h
    rw [← h]; rfl
  · rw [if_neg hnt] at h
    rw [Except.ok.injEq] at h
    rw [← h]

theorem parse_literal_parameters_index (function : FunctionDef) (afs : List FunctionDef) :
    ∀ (toks : List Token) (nodes : List Node) (idx : Nat) (fpt : ValueType) (out : List Node),
    parse_literal_parameters function afs toks nodes idx fpt = .ok out →
    out.map Node.index = nodes.map Node.index := by
  intro toks
  induction toks with
  | nil =>
    intro nodes idx fpt out h
    cases nodes with
    | nil => cases h; rfl
    | cons n ns => cases h
  | cons t ts ih =>
    intro nodes idx fpt out h
    cases nodes with
    | nil => cases h
    | cons n ns =>
      have h2 : (do
          let node2 ← parse_one_literal function afs t n idx fpt
          let rest ← parse_literal_parameters function afs ts ns (idx + 1) fpt
          Except.ok (node2 :: rest)) = Except.ok out := h
      rw [except_bind_ok] at h2
      obtain ⟨node2, hone, h2⟩ := h2
      rw [except_bind_ok] at h2
      obtain ⟨rest, hrest, h2⟩ := h2
      rw [Except.ok.injEq] at h2
      rw [← h2]
      simp only [List.map_cons]
      rw [parse_one_literal_index _ _ _ _ _ _ _ hone, ih ns (idx + 1) fpt rest hrest]

theorem set_fixup_head {tokens : List Token} {params out : List Node}
    {aps : List ScriptParameter}
    (h : set_index_fixup tokens params aps = .ok out) :
    out.head?.map Node.index = some (some 65535) := by
  unfold set_index_fixup at h
  cases params with
  | nil => cases h
  | cons p0 rest =>
    cases hsd : p0.string_data with
    | none =>
      simp only [hsd] at h
      cases ht : tokens.get? 0 with
      | some t0 => simp only [ht] at h; cases h
      | none => simp only [ht] at h; cases h
    | some sd =>
      simp only [hsd] at h
      cases hpi : parameter_index (asciiLower sd) aps with
      | some i =>
        simp only [hpi] at h
        split at h
        · rw [Except.ok.injEq] at h; rw [← h]; rfl
        · cases h
      | none =>
        simp only [hpi] at h
        split at h
        · rw [Except.ok.injEq] at h; rw [← h]; rfl
        · cases h

theorem seed_set_spec {fct : Token} {rt ft : ValueType} {tokens : List Token}
    {ags : List GlobalDef} {pt0 : Option ValueType} {t0 : Token}
    (ht0 : tokens.get? 0 = some t0)
    (h : passthrough_seed "set" fct rt ft tokens ags = .ok pt0) :
    t0.children = none ∧ ∃ g, lookupGlobal ags (asciiLower t0.string) = some g ∧
      pt0 = some g.value_type := by
  unfold passthrough_seed at h
  rw [if_pos rfl] at h
  simp only [ht0] at h
  cases hch : t0.children with
  | some c => simp only [hch] at h; cases h
  | none =>
    simp only [hch] at h
    cases hg : lookupGlobal ags (asciiLower t0.string) with
    | none => simp only [hg] at h; cases h
    | some g =>
      simp only [hg] at h
      rw [Except.ok.injEq] at h
      exact ⟨rfl, g, rfl, h.symm⟩

/-- C7: for every call to set whose arity check passes, a leaf first
argument naming no visible global is rejected with an error (this covers a
name matching only a script parameter, since the lookup consults only the
globals); and on success the first argument named an existing visible
global and its node's index union holds the sentinel 0xFFFF. -/
theorem c7_theorem (fuel : Nat) (fct : Token) (E : ValueType) (tokens : List Token)
    (aps : List ScriptParameter) (afs : List FunctionDef) (ags : List GlobalDef)
    (function : FunctionDef) (t0 : Token)
    (hfn : lookupFunction afs "set" = some function)
    (hmin : ¬ tokens.length < function.get_minimum_parameter_count)
    (ht0 : tokens.get? 0 = some t0) :
    ((t0.children = none → lookupGlobal ags (asciiLower t0.string) = none →
        create_node_from_function (analyzeRec fuel aps afs ags) "set" fct E tokens aps afs ags
          = .error (.setNotAGlobal (tokPos fct) (asciiLower t0.string))) ∧
      (∀ node, create_node_from_function (analyzeRec fuel aps afs ags) "set" fct E tokens aps
          afs ags = .ok node →
        (node.parameters.getD []).head?.map Node.index = some (some 65535) ∧
        t0.children = none ∧
        ∃ g, lookupGlobal ags (asciiLower t0.string) = some g)) := by
  constructor
  · intro hleaf hglob
    have hseed : passthrough_seed "set" fct function.return_type
        (if E = ValueType.passthrough then function.return_type else E) tokens ags =
        .error (.setNotAGlobal (tokPos fct) (asciiLower t0.string)) := by
      unfold passthrough_seed
      rw [if_pos rfl]
      simp only [ht0, hleaf, hglob]
    unfold create_node_from_function
    rw [if_neg (by decide)]
    simp only [hfn]
    rw [if_neg hmin]
    rw [hseed, except_error_bind]
  · intro node h
    unfold create_node_from_function at h
    rw [if_neg (by decide)] at h
    rw [hfn] at h
    have h2 : (if tokens.length < function.get_minimum_parameter_count then
        (Except.error (CErr.tooFewParameters (tokPos fct) "set"
          function.get_minimum_parameter_count tokens.length) : Except CErr Node)
      else do
        let passthrough_type ← passthrough_seed "set" fct function.return_type
          (if E = ValueType.passthrough then function.return_type else E) tokens ags
        let pr ← process_parameters (analyzeRec fuel aps afs ags) function "set"
          tokens.length tokens 0 passthrough_type
        let parameters1 ← apply_set_fixup "set" tokens pr.1 aps
        finish_function_call function "set" fct E
          (if E = ValueType.passthrough then function.return_type else E) tokens afs
          parameters1 pr.2) = .ok node := h
    clear h
    rw [if_neg hmin] at h2
    rw [except_bind_ok] at h2
    obtain ⟨pt0, hseed, h2⟩ := h2
    obtain ⟨hleaf, g, hg, hpt0⟩ := seed_set_spec ht0 hseed
    rw [except_bind_ok] at h2
    obtain ⟨pr, hpr, h2⟩ := h2
    rw [except_bind_ok] at h2
    obtain ⟨params1, hfix, h2⟩ := h2
    have hhead : params1.head?.map Node.index = some (some 65535) := by
      unfold apply_set_fixup at hfix
      rw [if_pos rfl] at hfix
      exact set_fixup_head hfix
    generalize (if E = ValueType.passthrough then function.return_type else E) = FT at h2
    simp only [finish_function_call] at h2
    split at h2
    · cases h2
    · split at h2
      · cases h2
      · rw [except_bind_ok] at h2
        obtain ⟨params2, hparse, h2⟩ := h2
        split at h2
        · cases h2
        · rw [Except.ok.injEq] at h2
          rw [← h2]
          refine ⟨?_, hleaf, g, hg⟩
          simp only [Node.parameters, Option.getD]
          have hidx := parse_literal_parameters_index _ _ _ _ _ _ _ hparse
          have hh : params2.head?.map Node.index = params1.head?.map Node.index := by
            have h1 : (params2.map Node.index).head? = (params1.map Node.index).head? := by
              rw [hidx]
            rw [head?_map', head?_map'] at h1
            exact h1
          rw [hh]
          exact hhead

/-- C7 witness: the theorem applied to (set x 5) with x a Short global; the
analysis succeeds and the first parameter node carries the sentinel. -/
theorem c7_theorem_witness :
    ∃ node, create_node_from_function (analyzeRec 2 [] [c7SetFn] [⟨"x", ValueType.short⟩])
        "set" c7CallToken ValueType.void [c7Arg0, c7Arg1] [] [c7SetFn]
        [⟨"x", ValueType.short⟩] = Except.ok node ∧
      (node.parameters.getD []).head?.map Node.index = some (some 65535) := by
  refine ⟨_, rfl, ?_⟩
  exact ((c7_theorem 2 c7CallToken ValueType.void [c7Arg0, c7Arg1] [] [c7SetFn]
    [⟨"x", ValueType.short⟩] c7SetFn c7Arg0 rfl (by decide) rfl).2 _ rfl).1

theorem parse_one_literal_passthrough (function : FunctionDef) (afs : List FunctionDef)
    (tk : Token) (n : Node) (idx : Nat) (fpt : ValueType) (out : Node)
    (hst : n.node_type = NodeType.primitive PrimitiveType.static)
    (hpt : n.value_type = ValueType.passthrough)
    (h : parse_one_literal function afs tk n idx fpt = .ok out) : out.value_type = fpt := by
  unfold parse_one_literal at h
  rw [if_pos hst] at h
  simp only [hpt, if_pos, except_bind_ok] at h
  obtain ⟨r, _, h⟩ := h
  rw [Except.ok.injEq] at h
  rw [← h]; rfl

theorem parse_literal_parameters_pos (function : FunctionDef) (afs : List FunctionDef) :
    ∀ (toks : List Token) (nodes : List Node) (idx : Nat) (fpt : ValueType) (out : List Node),
    parse_literal_parameters function afs toks nodes idx fpt = .ok out →
    ∀ (i : Nat) (tk : Token) (n : Node), toks.get? i = some tk → nodes.get? i = some n →
    ∃ m, out.get? i = some m ∧ parse_one_literal function afs tk n (idx + i) fpt = .ok m := by
  intro toks
  induction toks with
  | nil =>
    intro nodes idx fpt out h i tk n htk hn
    cases i <;> cases htk
  | cons t ts ih =>
    intro nodes idx fpt out h i tk n htk hn
    cases nodes with
    | nil => cases h
    | cons nd ns =>
      have h2 : (do
          let node2 ← parse_one_literal function afs t nd idx fpt
          let rest ← parse_literal_parameters function afs ts ns (idx + 1) fpt
          Except.ok (node2 :: rest)) = Except.ok out := h
      rw [except_bind_ok] at h2
      obtain ⟨node2, hone, h2⟩ := h2
      rw [except_bind_ok] at h2
      obtain ⟨rest, hrest, h2⟩ := h2
      rw [Except.ok.injEq] at h2
      subst h2
      cases i with
      | zero =>
        cases htk
        cases hn
        exact ⟨node2, rfl, hone⟩
      | succ j =>
        obtain ⟨m, hm1, hm2⟩ := ih ns (idx + 1) fpt rest hrest j tk n htk hn
        refine ⟨m, hm1, ?_⟩
        have he : idx + (j + 1) = idx + 1 + j := by omega
        rw [he]
        exact hm2

/-- C5: in a successful non-cond call whose passthrough unification type is
still undetermined (None) after the argument pass, the literal parsing runs
with the defaulted passthrough type Real, so every argument position whose
node is a static literal still typed Passthrough comes out with value type
Real in the finished call node. -/
theorem c5_theorem (rec : Token → ValueType → Except CErr Node) (function : FunctionDef)
    (fname : String) (fct : Token) (E : ValueType) (tokens : List Token)
    (aps : List ScriptParameter) (afs : List FunctionDef) (ags : List GlobalDef)
    (pt0 : Option ValueType) (args params1 : List Node) (node : Node)
    (hname : fname ≠ "cond")
    (hfn : lookupFunction afs fname = some function)
    (hmin : ¬ tokens.length < function.get_minimum_parameter_count)
    (hseed : passthrough_seed fname fct function.return_type
        (if E = ValueType.passthrough then function.return_type else E) tokens ags = .ok pt0)
    (hpr : process_parameters rec function fname tokens.length tokens 0 pt0
        = .ok (args, none))
    (hfix : apply_set_fixup fname tokens args aps = .ok params1)
    (h : create_node_from_function rec fname fct E tokens aps afs ags = .ok node) :
    ∀ (i : Nat) (tk : Token) (n : Node), tokens.get? i = some tk → params1.get? i = some n →
      n.node_type = NodeType.primitive PrimitiveType.static →
      n.value_type = ValueType.passthrough →
      ∃ m, (node.parameters.getD []).get? i = some m ∧ m.value_type = ValueType.real := by
  intro i tk n htk hn hst hptv
  unfold create_node_from_function at h
  rw [if_neg hname] at h
  rw [hfn] at h
  have h2 : (if tokens.length < function.get_minimum_parameter_count then
      (Except.error (CErr.tooFewParameters (tokPos fct) fname
        function.get_minimum_parameter_count tokens.length) : Except CErr Node)
    else do
      let passthrough_type ← passthrough_seed fname fct function.return_type
        (if E = ValueType.passthrough then function.return_type else E) tokens ags
      let pr ← process_parameters rec function fname tokens.length tokens 0 passthrough_type
      let parameters1 ← apply_set_fixup fname tokens pr.1 aps
      finish_function_call function fname fct E
        (if E = ValueType.passthrough then function.return_type else E) tokens afs
        parameters1 pr.2) = .ok node := h
  clear h
  rw [if_neg hmin] at h2
  rw [except_bind_ok] at h2
  obtain ⟨pt0x, hseedx, h2⟩ := h2
  rw [hseed] at hseedx
  rw [Except.ok.injEq] at hseedx
  subst hseedx
  rw [except_bind_ok] at h2
  obtain ⟨pr, hprx, h2⟩ := h2
  rw [hpr] at hprx
  rw [Except.ok.injEq] at hprx
  subst hprx
  have h3 : (do
      let parameters1 ← apply_set_fixup fname tokens args aps
      finish_function_call function fname fct E
        (if E = ValueType.passthrough then function.return_type else E) tokens afs
        parameters1 none) = .ok node := h2
  clear h2
  rw [except_bind_ok] at h3
  obtain ⟨params1x, hfixx, h3⟩ := h3
  rw [hfix] at hfixx
  rw [Except.ok.injEq] at hfixx
  subst hfixx
  generalize (if E = ValueType.passthrough then function.return_type else E) = FT at h3
  simp only [finish_function_call] at h3
  split at h3
  · cases h3
  · split at h3
    · cases h3
    · rw [except_bind_ok] at h3
      obtain ⟨params2, hparse, h3⟩ := h3
      split at h3
      · cases h3
      · rw [Except.ok.injEq] at h3
        rw [← h3]
        simp only [Node.parameters, Option.getD]
        obtain ⟨m, hm1, hm2⟩ := parse_literal_parameters_pos function afs tokens params1 0 _
          params2 hparse i tk n htk hn
        exact ⟨m, hm1, parse_one_literal_passthrough function afs tk n (0 + i) _ m hst hptv hm2⟩

/-- C5 witness: the theorem applied to (+ 1 2) analyzed with expected type
Real; the first parameter node of the result has value type Real. -/
theorem c5_theorem_witness :
    ∃ node m, create_node_from_function (analyzeRec 1 [] [c5PlusFn] []) "+" c5CallToken
        ValueType.real [c5Tok1, c5Tok2] [] [c5PlusFn] [] = .ok node ∧
      (node.parameters.getD []).get? 0 = some m ∧ m.value_type = ValueType.real := by
  obtain ⟨m, hm1, hm2⟩ := c5_theorem (analyzeRec 1 [] [c5PlusFn] []) c5PlusFn "+" c5CallToken
    ValueType.real [c5Tok1, c5Tok2] [] [c5PlusFn] [] none _ _ _
    (by decide) rfl (by decide) rfl rfl rfl rfl 0 c5Tok1 _ rfl rfl rfl rfl
  exact ⟨_, m, rfl, hm1, hm2⟩

theorem get?_set_ne {α : Type} (l : List α) (i j : Nat) (a : α) (h : i ≠ j) :
    (l.set i a).get? j = l.get? j := by
  simp [List.get?_eq_getElem?, List.getElem?_set_ne h]

theorem get?_set_self {α : Type} (l : List α) (i : Nat) (a b : α) (h : l.get? i = some b) :
    (l.set i a).get? i = some a := by
  have hi : i < l.length := get?_lt_length h
  simp [List.get?_eq_getElem?, List.getElem?_set_self, hi]

theorem compiledSize_pos (n : Node) : 0 < compiledSize n := by
  cases n with
  | mk vt nt sd d idx ps fl ln cl =>
    cases nt with
    | primitive pt => exact Nat.one_pos
    | functionCall b =>
      cases ps with
      | some args => exact Nat.add_pos_left (by omega) _
      | none => exact Nat.zero_lt_two

theorem argRootIndices_mem_bounds : ∀ (ps : List Node) (start j : Nat),
    j ∈ argRootIndices start ps → start ≤ j ∧ j < start + compiledSizeList ps := by
  intro ps
  induction ps with
  | nil => intro start j hj; cases hj
  | cons p rest ih =>
    intro start j hj
    have e : argRootIndices start (p :: rest) =
        start :: argRootIndices (start + compiledSize p) rest := rfl
    rw [e] at hj
    have e2 : compiledSizeList (p :: rest) = compiledSize p + compiledSizeList rest := rfl
    rcases List.mem_cons.mp hj with h | h
    · subst h
      have := compiledSize_pos p
      exact ⟨le_refl _, by rw [e2]; omega⟩
    · obtain ⟨h1, h2⟩ := ih (start + compiledSize p) j h
      exact ⟨by omega, by rw [e2]; omega⟩

theorem getLastD_mem_or : ∀ (l : List Nat) (d : Nat), l.getLastD d = d ∨ l.getLastD d ∈ l := by
  intro l
  induction l with
  | nil => intro d; exact Or.inl rfl
  | cons a l ih =>
    intro d
    rw [List.getLastD_cons]
    rcases ih a with h | h
    · exact Or.inr (by rw [h]; exact List.mem_cons_self _ _)
    · exact Or.inr (List.mem_cons_of_mem _ h)

theorem nextChain_congr : ∀ (k : Nat) (arr1 arr2 : List CompiledNode) (start : Nat),
    arr2.get? start = arr1.get? start →
    (∀ j ∈ nextChain arr1 start k, arr2.get? j = arr1.get? j) →
    nextChain arr2 start k = nextChain arr1 start k := by
  intro k
  induction k with
  | zero => intro arr1 arr2 start _ _; rfl
  | succ k ih =>
    intro arr1 arr2 start hs hmem
    simp only [nextChain, hs]
    cases h1 : arr1.get? start with
    | none => rfl
    | some node =>
      cases hnx : node.next_node with
      | none => simp only [hnx]
      | some nxt =>
        simp only [hnx]
        have hch : nextChain arr1 start (k + 1) = nxt :: nextChain arr1 nxt k := by
          simp only [nextChain, h1, hnx]
        have hs2 : arr2.get? nxt = arr1.get? nxt := by
          apply hmem
          rw [hch]
          exact List.mem_cons_self _ _
        have hmem2 : ∀ j ∈ nextChain arr1 nxt k, arr2.get? j = arr1.get? j := by
          intro j hj
          apply hmem
          rw [hch]
          exact List.mem_cons_of_mem _ hj
        rw [ih arr1 arr2 nxt hs2 hmem2]

theorem callChainOK_stable (arr1 arr2 : List CompiledNode) (i : Nat) (sd : Option String)
    (args : List Node)
    (hframe : ∀ j, i + 1 ≤ j → j < i + 2 + compiledSizeList args → arr2.get? j = arr1.get? j)
    (hroot : ∀ cn, arr1.get? i = some cn → ∃ cn2, arr2.get? i = some cn2 ∧
      cn2.node_type = cn.node_type ∧ cn2.data = cn.data)
    (h : CallChainOK arr1 i sd args) : CallChainOK arr2 i sd args := by
  obtain ⟨⟨cn, h1, h2, h3⟩, ⟨fn, h4, h5, h6, h7⟩, hchain, ⟨ln, h8, h9⟩⟩ := h
  refine ⟨?_, ?_, ?_, ?_⟩
  · obtain ⟨cn2, g1, g2, g3⟩ := hroot cn h1
    exact ⟨cn2, g1, by rw [g2]; exact h2, by rw [g3]; exact h3⟩
  · have hfr : arr2.get? (i + 1) = arr1.get? (i + 1) := hframe (i + 1) (le_refl _) (by omega)
    exact ⟨fn, by rw [hfr]; exact h4, h5, h6, h7⟩
  · rw [← hchain]
    apply nextChain_congr
    · exact hframe (i + 1) (le_refl _) (by omega)
    · intro j hj
      rw [hchain] at hj
      obtain ⟨hl, hu⟩ := argRootIndices_mem_bounds args (i + 2) j hj
      exact hframe j (by omega) (by omega)
  · rcases getLastD_mem_or (argRootIndices (i + 2) args) (i + 1) with he | hm
    · rw [he] at h8 ⊢
      exact ⟨ln, by rw [hframe (i + 1) (le_refl _) (by omega)]; exact h8, h9⟩
    · obtain ⟨hl, hu⟩ := argRootIndices_mem_bounds args (i + 2) _ hm
      exact ⟨ln, by rw [hframe _ (by omega) (by omega)]; exact h8, h9⟩

theorem callPositions_bounds :
    (∀ n : Node, ∀ start pos, pos ∈ callPositions start n →
      start ≤ pos.1 ∧ pos.1 + 2 + compiledSizeList pos.2.2 ≤ start + compiledSize n) ∧
    (∀ ps : List Node, ∀ start pos, pos ∈ callPositionsList start ps →
      start ≤ pos.1 ∧ pos.1 + 2 + compiledSizeList pos.2.2 ≤ start + compiledSizeList ps) := by
  apply node_mutual_induction
    (fun n => ∀ start pos, pos ∈ callPositions start n →
      start ≤ pos.1 ∧ pos.1 + 2 + compiledSizeList pos.2.2 ≤ start + compiledSize n)
    (fun ps => ∀ start pos, pos ∈ callPositionsList start ps →
      start ≤ pos.1 ∧ pos.1 + 2 + compiledSizeList pos.2.2 ≤ start + compiledSizeList ps)
  · intro vt nt sd d idx ps fl ln cl hq start pos hpos
    cases nt with
    | primitive pt => cases hpos
    | functionCall b =>
      cases ps with
      | some args =>
        have e : callPositions start
            (Node.mk vt (NodeType.functionCall b) sd d idx (some args) fl ln cl) =
            (start, sd, args) :: callPositionsList (start + 2) args := rfl
        rw [e] at hpos
        have e2 : compiledSize
            (Node.mk vt (NodeType.functionCall b) sd d idx (some args) fl ln cl) =
            2 + compiledSizeList args := rfl
        have hq2 : ∀ start2 pos2, pos2 ∈ callPositionsList start2 args →
            start2 ≤ pos2.1 ∧
            pos2.1 + 2 + compiledSizeList pos2.2.2 ≤ start2 + compiledSizeList args := hq
        rcases List.mem_cons.mp hpos with h | h
        · subst h
          refine ⟨le_refl _, ?_⟩
          rw [e2]
          show start + 2 + compiledSizeList args ≤ start + (2 + compiledSizeList args)
          omega
        · obtain ⟨h1, h2⟩ := hq2 (start + 2) pos h
          exact ⟨by omega, by rw [e2]; omega⟩
      | none =>
        have e : callPositions start
            (Node.mk vt (NodeType.functionCall b) sd d idx none fl ln cl) =
            [(start, sd, [])] := rfl
        rw [e] at hpos
        rcases List.mem_cons.mp hpos with h | h
        · subst h
          refine ⟨le_refl _, ?_⟩
          show start + 2 + (0 : Nat) ≤ start + 2
          omega
        · cases h
  · intro start pos hpos
    cases hpos
  · intro p rest hp hq start pos hpos
    have e : callPositionsList start (p :: rest) =
        callPositions start p ++ callPositionsList (start + compiledSize p) rest := rfl
    rw [e] at hpos
    have e2 : compiledSizeList (p :: rest) = compiledSize p + compiledSizeList rest := rfl
    rcases List.mem_append.mp hpos with h | h
    · obtain ⟨h1, h2⟩ := hp start pos h
      exact ⟨h1, by rw [e2]; omega⟩
    · obtain ⟨h1, h2⟩ := hq (start + compiledSize p) pos h
      exact ⟨by omega, by rw [e2]; omega⟩

theorem get?_append_two {α : Type} (arr : List α) (x y : α) :
    ((arr ++ [x]) ++ [y]).get? arr.length = some x ∧
    ((arr ++ [x]) ++ [y]).get? (arr.length + 1) = some y := by
  constructor
  · rw [List.get?_append (by simp)]
    exact List.get?_concat_length _ _
  · rw [List.append_assoc, List.get?_append_right (Nat.le_add_right _ _)]
    simp

theorem get?_append_two_lt {α : Type} (arr : List α) (x y : α) (j : Nat) (hj : j < arr.length) :
    ((arr ++ [x]) ++ [y]).get? j = arr.get? j := by
  have hjlt : j < (arr ++ [x]).length := by
    simp only [List.length_append, List.length_cons, List.length_nil]
    omega
  rw [List.get?_append hjlt, List.get?_append hj]

theorem emit_primitive_spec (vt : ValueType) (pt : PrimitiveType) (sd : Option String)
    (d : Option NodeData) (idx : Option Nat) (ps : Option (List Node)) (fl ln cl : Nat) :
    EmitNodeSpec (Node.mk vt (NodeType.primitive pt) sd d idx ps fl ln cl) := by
  intro arr
  have ered : make_compiled_node_from_node
      (Node.mk vt (NodeType.primitive pt) sd d idx ps fl ln cl) arr =
      (arr ++ [⟨NodeType.primitive pt, vt, d, sd, none, idx, fl, ln, cl⟩], arr.length) := rfl
  rw [ered]
  refine ⟨rfl, ?_, ?_, ?_, ?_⟩
  · show (arr ++ [(⟨NodeType.primitive pt, vt, d, sd, none, idx, fl, ln, cl⟩ :
        CompiledNode)]).length = arr.length + 1
    simp
  · intro j hj
    exact List.get?_append hj
  · exact ⟨⟨NodeType.primitive pt, vt, d, sd, none, idx, fl, ln, cl⟩,
      List.get?_concat_length _ _, rfl⟩
  · intro pos hpos
    cases hpos

theorem emit_call_none_spec (vt : ValueType) (b : Bool) (sd : Option String)
    (d : Option NodeData) (idx : Option Nat) (fl ln cl : Nat) :
    EmitNodeSpec (Node.mk vt (NodeType.functionCall b) sd d idx none fl ln cl) := by
  intro arr
  have ered : make_compiled_node_from_node
      (Node.mk vt (NodeType.functionCall b) sd d idx none fl ln cl) arr =
      ((arr ++ [callCompiledNode b vt (arr.length + 1) idx fl ln cl]) ++
        [fnameCompiledNode sd idx fl ln cl], arr.length) := rfl
  rw [ered]
  have hcn : ((arr ++ [callCompiledNode b vt (arr.length + 1) idx fl ln cl]) ++
      [fnameCompiledNode sd idx fl ln cl]).get? arr.length =
      some (callCompiledNode b vt (arr.length + 1) idx fl ln cl) :=
    (get?_append_two arr _ _).1
  have hfn : ((arr ++ [callCompiledNode b vt (arr.length + 1) idx fl ln cl]) ++
      [fnameCompiledNode sd idx fl ln cl]).get? (arr.length + 1) =
      some (fnameCompiledNode sd idx fl ln cl) :=
    (get?_append_two arr _ _).2
  refine ⟨rfl, ?_, ?_, ?_, ?_⟩
  · show ((arr ++ [callCompiledNode b vt (arr.length + 1) idx fl ln cl]) ++
      [fnameCompiledNode sd idx fl ln cl]).length = arr.length + 2
    simp
  · intro j hj
    exact get?_append_two_lt arr _ _ j hj
  · exact ⟨callCompiledNode b vt (arr.length + 1) idx fl ln cl, hcn, rfl⟩
  · intro pos hpos
    have e : callPositions arr.length
        (Node.mk vt (NodeType.functionCall b) sd d idx none fl ln cl) =
        [(arr.length, sd, [])] := rfl
    rw [e] at hpos
    rcases List.mem_cons.mp hpos with h | h
    · subst h
      refine ⟨⟨callCompiledNode b vt (arr.length + 1) idx fl ln cl, hcn, rfl, rfl⟩,
        ⟨fnameCompiledNode sd idx fl ln cl, hfn, rfl, rfl, rfl⟩, rfl,
        ⟨fnameCompiledNode sd idx fl ln cl, hfn, rfl⟩⟩
    · cases h

theorem emit_call_some_spec (vt : ValueType) (b : Bool) (sd : Option String)
    (d : Option NodeData) (idx : Option Nat) (args : List Node) (fl ln cl : Nat)
    (hq : EmitParamsSpec args) :
    EmitNodeSpec (Node.mk vt (NodeType.functionCall b) sd d idx (some args) fl ln cl) := by
  intro arr
  have ered : make_compiled_node_from_node
      (Node.mk vt (NodeType.functionCall b) sd d idx (some args) fl ln cl) arr =
      (make_compiled_params args (arr.length + 1)
        ((arr ++ [callCompiledNode b vt (arr.length + 1) idx fl ln cl]) ++
          [fnameCompiledNode sd idx fl ln cl]), arr.length) := rfl
  rw [ered]
  obtain ⟨A2, hA2⟩ : ∃ A2, (arr ++ [callCompiledNode b vt (arr.length + 1) idx fl ln cl]) ++
      [fnameCompiledNode sd idx fl ln cl] = A2 := ⟨_, rfl⟩
  rw [hA2]
  have hA2len : A2.length = arr.length + 2 := by rw [← hA2]; simp
  have hcn : A2.get? arr.length =
      some (callCompiledNode b vt (arr.length + 1) idx fl ln cl) := by
    rw [← hA2]
    exact (get?_append_two arr _ _).1
  have hfn : A2.get? (arr.length + 1) = some (fnameCompiledNode sd idx fl ln cl) := by
    rw [← hA2]
    exact (get?_append_two arr _ _).2
  obtain ⟨hlen2, hframe2, hempty2, hne2, hchain2, hend2, hposs2⟩ :=
    hq (arr.length + 1) A2 (fnameCompiledNode sd idx fl ln cl) hfn (by rw [hA2len]; omega)
  refine ⟨rfl, ?_, ?_, ?_, ?_⟩
  · rw [hlen2, hA2len]
    have e2 : compiledSize (Node.mk vt (NodeType.functionCall b) sd d idx (some args) fl ln cl) =
        2 + compiledSizeList args := rfl
    rw [e2]
    omega
  · intro j hj
    rw [hframe2 j (by omega) (by rw [hA2len]; omega), ← hA2]
    exact get?_append_two_lt arr _ _ j hj
  · refine ⟨callCompiledNode b vt (arr.length + 1) idx fl ln cl, ?_, rfl⟩
    rw [hframe2 arr.length (by omega) (by rw [hA2len]; omega), hcn]
  · intro pos hpos
    have epos : callPositions arr.length
        (Node.mk vt (NodeType.functionCall b) sd d idx (some args) fl ln cl) =
        (arr.length, sd, args) :: callPositionsList (arr.length + 2) args := rfl
    rw [epos] at hpos
    rcases List.mem_cons.mp hpos with h | h
    · subst h
      refine ⟨⟨callCompiledNode b vt (arr.length + 1) idx fl ln cl, ?_, rfl, rfl⟩, ?_, ?_, ?_⟩
      · rw [hframe2 arr.length (by omega) (by rw [hA2len]; omega), hcn]
      · by_cases hargs : args = []
        · subst hargs
          exact ⟨fnameCompiledNode sd idx fl ln cl, by rw [hempty2 rfl]; exact hfn,
            rfl, rfl, rfl⟩
        · exact ⟨{ fnameCompiledNode sd idx fl ln cl with next_node := some A2.length },
            hne2 hargs, rfl, rfl, rfl⟩
      · rw [hA2len] at hchain2
        exact hchain2
      · by_cases hargs : args = []
        · subst hargs
          exact ⟨fnameCompiledNode sd idx fl ln cl, by rw [hempty2 rfl]; exact hfn, rfl⟩
        · have hend3 := hend2 hargs
          rw [hA2len] at hend3
          exact hend3
    · rw [← hA2len] at h
      exact hposs2 pos h

theorem emit_params_nil_spec : EmitParamsSpec [] := by
  intro prev arr c hc hlt
  refine ⟨rfl, fun j _ _ => rfl, fun _ => rfl, fun h => absurd rfl h, rfl,
    fun h => absurd rfl h, ?_⟩
  intro pos hpos
  cases hpos

theorem emit_params_cons_spec (p : Node) (rest : List Node)
    (hp : EmitNodeSpec p) (hq : EmitParamsSpec rest) : EmitParamsSpec (p :: rest) := by
  intro prev arr c hc hlt
  obtain ⟨hr2, hrlen, hrframe, hroot0, hrpos⟩ := hp arr
  obtain ⟨root, hroot, hrootnn⟩ := hroot0
  have hprev1 : (make_compiled_node_from_node p arr).1.get? prev = some c := by
    rw [hrframe prev hlt]
    exact hc
  have hsetnn : set_next_node (make_compiled_node_from_node p arr).1 prev
      (make_compiled_node_from_node p arr).2 =
      (make_compiled_node_from_node p arr).1.set prev { c with next_node := some arr.length } := by
    rw [hr2]
    unfold set_next_node
    rw [hprev1]
  obtain ⟨A, hA⟩ : ∃ A, (make_compiled_node_from_node p arr).1.set prev
      { c with next_node := some arr.length } = A := ⟨_, rfl⟩
  have hout : make_compiled_params (p :: rest) prev arr =
      make_compiled_params rest arr.length A := by
    have e1 : make_compiled_params (p :: rest) prev arr =
        make_compiled_params rest (make_compiled_node_from_node p arr).2
          (set_next_node (make_compiled_node_from_node p arr).1 prev
            (make_compiled_node_from_node p arr).2) := rfl
    rw [e1, hsetnn, hr2, hA]
  have hAlen : A.length = arr.length + compiledSize p := by
    rw [← hA, List.length_set]
    exact hrlen
  have hAget_root : A.get? arr.length = some root := by
    rw [← hA, get?_set_ne _ _ _ _ (Nat.ne_of_lt hlt)]
    exact hroot
  have hAget_prev : A.get? prev = some { c with next_node := some arr.length } := by
    rw [← hA]
    exact get?_set_self _ _ _ _ hprev1
  have hAframe : ∀ j, j ≠ prev → j < arr.length → A.get? j = arr.get? j := by
    intro j hj hjl
    rw [← hA, get?_set_ne _ _ _ _ (fun he => hj he.symm), hrframe j hjl]
  have hAget_other : ∀ j, j ≠ prev →
      A.get? j = (make_compiled_node_from_node p arr).1.get? j := by
    intro j hj
    rw [← hA, get?_set_ne _ _ _ _ (fun he => hj he.symm)]
  obtain ⟨hlen2, hframe2, hempty2, hne2, hchain2, hend2, hposs2⟩ :=
    hq arr.length A root hAget_root (by rw [hAlen]; have := compiledSize_pos p; omega)
  refine ⟨?_, ?_, ?_, ?_, ?_, ?_, ?_⟩
  · rw [hout, hlen2, hAlen]
    have e2 : compiledSizeList (p :: rest) = compiledSize p + compiledSizeList rest := rfl
    rw [e2]
    omega
  · intro j hj hjl
    rw [hout, hframe2 j (by omega) (by rw [hAlen]; omega), hAframe j hj hjl]
  · intro h
    exact absurd h (List.cons_ne_nil p rest)
  · intro _
    rw [hout, hframe2 prev (Nat.ne_of_lt hlt) (by rw [hAlen]; omega), hAget_prev]
  · rw [hout]
    have e3 : argRootIndices arr.length (p :: rest) =
        arr.length :: argRootIndices (arr.length + compiledSize p) rest := rfl
    rw [e3]
    have hgp : (make_compiled_params rest arr.length A).get? prev =
        some { c with next_node := some arr.length } := by
      rw [hframe2 prev (Nat.ne_of_lt hlt) (by rw [hAlen]; omega), hAget_prev]
    show nextChain (make_compiled_params rest arr.length A) prev (rest.length + 1) =
      arr.length :: argRootIndices (arr.length + compiledSize p) rest
    simp only [nextChain, hgp]
    rw [hchain2, hAlen]
  · intro _
    rw [hout]
    by_cases hrest : rest = []
    · subst hrest
      rw [hempty2 rfl]
      have e4 : (argRootIndices arr.length (p :: ([] : List Node))).getLastD prev =
          arr.length := rfl
      rw [e4]
      exact ⟨root, hAget_root, hrootnn⟩
    · obtain ⟨ln2, hln1, hln2⟩ := hend2 hrest
      rw [hAlen] at hln1
      have e5 : (argRootIndices arr.length (p :: rest)).getLastD prev =
          (argRootIndices (arr.length + compiledSize p) rest).getLastD arr.length := by
        have e3 : argRootIndices arr.length (p :: rest) =
            arr.length :: argRootIndices (arr.length + compiledSize p) rest := rfl
        rw [e3, List.getLastD_cons]
      rw [e5]
      exact ⟨ln2, hln1, hln2⟩
  · intro pos hpos
    have e6 : callPositionsList arr.length (p :: rest) =
        callPositions arr.length p ++ callPositionsList (arr.length + compiledSize p) rest := rfl
    rw [e6] at hpos
    rw [hout]
    rcases List.mem_append.mp hpos with h | h
    · obtain ⟨hlb, hub⟩ := callPositions_bounds.1 p arr.length pos h
      refine callChainOK_stable (make_compiled_node_from_node p arr).1 _ pos.1 pos.2.1 pos.2.2
        ?_ ?_ (hrpos pos h)
      · intro j hj1 hj2
        rw [hframe2 j (by omega) (by rw [hAlen]; omega), hAget_other j (by omega)]
      · intro cn hcn
        by_cases hpos1 : pos.1 = arr.length
        · rw [hpos1] at hcn ⊢
          rw [hroot, Option.some.injEq] at hcn
          subst hcn
          by_cases hrest : rest = []
          · subst hrest
            rw [hempty2 rfl]
            exact ⟨root, hAget_root, rfl, rfl⟩
          · exact ⟨{ root with next_node := some A.length }, hne2 hrest, rfl, rfl⟩
        · refine ⟨cn, ?_, rfl, rfl⟩
          rw [hframe2 pos.1 hpos1 (by rw [hAlen]; omega),
            hAget_other pos.1 (by omega)]
          exact hcn
    · rw [← hAlen] at h
      exact hposs2 pos h

theorem emit_spec : (∀ n, EmitNodeSpec n) ∧ (∀ ps, EmitParamsSpec ps) := by
  apply node_mutual_induction EmitNodeSpec EmitParamsSpec
  · intro vt nt sd d idx ps fl ln cl hq
    cases nt with
    | primitive pt => exact emit_primitive_spec vt pt sd d idx ps fl ln cl
    | functionCall b =>
      cases ps with
      | some args => exact emit_call_some_spec vt b sd d idx args fl ln cl hq
      | none => exact emit_call_none_spec vt b sd d idx fl ln cl
  · exact emit_params_nil_spec
  · exact emit_params_cons_spec

theorem emit_forest_from_spec : ∀ (roots : List Node) (arr : List CompiledNode),
    (emit_forest_from roots arr).length = arr.length + compiledSizeList roots ∧
    (∀ j, j < arr.length → (emit_forest_from roots arr).get? j = arr.get? j) ∧
    (∀ pos ∈ callPositionsForest arr.length roots,
      CallChainOK (emit_forest_from roots arr) pos.1 pos.2.1 pos.2.2) := by
  intro roots
  induction roots with
  | nil =>
    intro arr
    refine ⟨rfl, fun j _ => rfl, fun pos hpos => ?_⟩
    cases hpos
  | cons r rest ih =>
    intro arr
    obtain ⟨hr2, hrlen, hrframe, hroot0, hrpos⟩ := (emit_spec.1 r) arr
    obtain ⟨hl, hf, hp⟩ := ih (make_compiled_node_from_node r arr).1
    have eo : emit_forest_from (r :: rest) arr =
        emit_forest_from rest (make_compiled_node_from_node r arr).1 := rfl
    refine ⟨?_, ?_, ?_⟩
    · rw [eo, hl, hrlen]
      have e2 : compiledSizeList (r :: rest) = compiledSize r + compiledSizeList rest := rfl
      rw [e2]
      omega
    · intro j hj
      rw [eo, hf j (by rw [hrlen]; omega), hrframe j hj]
    · intro pos hpos
      have e : callPositionsForest arr.length (r :: rest) =
          callPositions arr.length r ++
            callPositionsForest (arr.length + compiledSize r) rest := rfl
      rw [e] at hpos
      rw [eo]
      rcases List.mem_append.mp hpos with h | h
      · obtain ⟨hlb, hub⟩ := callPositions_bounds.1 r arr.length pos h
        refine callChainOK_stable (make_compiled_node_from_node r arr).1 _ pos.1 pos.2.1
          pos.2.2 ?_ ?_ (hrpos pos h)
        · intro j hj1 hj2
          exact hf j (by rw [hrlen]; omega)
        · intro cn hcn
          refine ⟨cn, ?_, rfl, rfl⟩
          rw [hf pos.1 (by rw [hrlen]; omega)]
          exact hcn
      · rw [← hrlen] at h
        exact hp pos h

/-- C4: for every function-call node of the emitted flat array (every member
of callPositionsForest for the forest of roots), the call node's NodeOffset
data points immediately past itself to a synthetic Primitive(Static) node of
value type FunctionName holding the call's string data, and following
next_node from that node visits exactly the call's argument root nodes in
source order, the last of which (or the FunctionName node itself when the
call has no arguments) has next_node = None. -/
theorem c4_theorem (roots : List Node) (pos : Nat × Option String × List Node)
    (hpos : pos ∈ callPositionsForest 0 roots) :
    CallChainOK (emit_forest roots) pos.1 pos.2.1 pos.2.2 :=
  (emit_forest_from_spec roots []).2.2 pos hpos

/-- C4 witness: the theorem applied to the single-root forest (begin 5); its
call node sits at index 0 and satisfies the chain invariant. -/
theorem c4_theorem_witness :
    (0, some "begin", [c4Arg]) ∈ callPositionsForest 0 [c4Root] ∧
    CallChainOK (emit_forest [c4Root]) 0 (some "begin") [c4Arg] := by
  constructor
  · exact List.Mem.head _
  · exact c4_theorem [c4Root] (0, some "begin", [c4Arg]) (List.Mem.head _)

end Riat
